import Mathlib

/-!
# Verification of the Lode Runner-style mini engine (`loderunner_min.py`)

This file shallowly embeds the core simulation engine of the repository:
tile grid, player/enemy entities, digging with hole regeneration timers,
gravity, the rule-based enemy chase policy, and the fixed-timestep `step`
function, together with the externally triggered intents
(`handle_player_move`, `dig`, `reset`).

Python integers are modelled as `Int`; tile kinds are the source's integer
constants (`Nat`).  The mutable `Game` object is modelled as a record that
every operation transforms functionally.  List mutation during iteration in
`update_holes` (Python iterates over a copy of `self.holes` while mutating
timers in place and calling `list.remove`) is modelled by the structurally
recursive pass `Game.uhGo`; see the comment there for why this is exactly
the source semantics.
-/

set_option linter.unusedVariables false

-- ----------------------------
-- Config (tile ids and timing constants from the source)
-- ----------------------------

def EMPTY : Nat := 0

def BRICK : Nat := 1

def LADDER : Nat := 2

def ROPE : Nat := 3

def GOLD : Nat := 4

def EXIT : Nat := 5

/-- `HOLE_REGEN_FRAMES = 240`. -/
def HOLE_REGEN_FRAMES : Int := 240

/-- `ENEMY_MOVE_INTERVAL = 10`. -/
def ENEMY_MOVE_INTERVAL : Int := 10

/-- `COUNTDOWN_FRAMES`: the value `300` assigned to `self.countdown` in `Game.reset`. -/
def COUNTDOWN_FRAMES : Int := 300

-- ----------------------------
-- Level (data-driven)
-- ----------------------------

def LEVEL_STR : List String := [
  "####################",
  "#...........G......#",
  "#..====............#",
  "#..=..=.....HHH....#",
  "#..=..=.....H.H....#",
  "#..=..=..G..H.H....#",
  "#..=..=.....H.H....#",
  "#..=..=.....HHH....#",
  "#..=..=............#",
  "#..=..=.....G......#",
  "#..=..=............#",
  "#..=..=......E.....#",
  "#..=..=............#",
  "#..=..=............#",
  "#..=..=............#",
  "#..........P.......#",
  "####################"]

/-- Parser state: (player_start, exit_pos, gold_positions), threaded left to
right through the characters exactly as the Python loop reassigns them. -/
abbrev ParseSt := (Int × Int) × (Int × Int) × List (Int × Int)

/-- One row of `parse_level`: walk the characters of a row at row index `y`,
starting at column `x`, producing the tile ids and updating the parser
state.  Unknown characters map to `EMPTY` (the source's lenient fallback). -/
def parseCells (y : Int) : Int → List Char → ParseSt → List Nat × ParseSt
  | _, [], st => ([], st)
  | x, ch :: rest, st =>
    let cellSt : Nat × ParseSt :=
      match ch with
      | '.' => (EMPTY, st)
      | '#' => (BRICK, st)
      | 'H' => (LADDER, st)
      | '=' => (ROPE, st)
      | 'G' => (GOLD, (st.1, st.2.1, st.2.2 ++ [(x, y)]))
      | 'P' => (EMPTY, ((x, y), st.2.1, st.2.2))
      | 'E' => (EXIT, (st.1, (x, y), st.2.2))
      | _ => (EMPTY, st)
    let rec' := parseCells y (x + 1) rest cellSt.2
    (cellSt.1 :: rec'.1, rec'.2)

/-- The outer loop of `parse_level` over the rows. -/
def parseRows : Int → List String → ParseSt → List (List Nat) × ParseSt
  | _, [], st => ([], st)
  | y, row :: rest, st =>
    let r := parseCells y 0 row.data st
    let rs := parseRows (y + 1) rest r.2
    (r.1 :: rs.1, rs.2)

/-- `parse_level(lines)`: returns (grid, player_start, exit_pos, gold_positions);
the start positions default to `(1, 1)` as in the source. -/
def parse_level (lines : List String) :
    List (List Nat) × (Int × Int) × (Int × Int) × List (Int × Int) :=
  let r := parseRows 0 lines ((1, 1), (1, 1), [])
  (r.1, r.2.1, r.2.2.1, r.2.2.2)

-- ----------------------------
-- Helpers
-- ----------------------------

/-- `in_bounds(grid, x, y)`.  Python's `len(grid[0])` on an empty grid would
raise; we model the empty-grid row length as `0` (same `False` outcome for
every `x`). -/
def in_bounds (grid : List (List Nat)) (x y : Int) : Bool :=
  0 ≤ y && y < (grid.length : Int) && 0 ≤ x && x < ((grid.headD []).length : Int)

/-- Raw row/column lookup `grid[j][i]` with a `BRICK` default (only ever read
under an `in_bounds` guard, where the default never fires on a well-formed
grid). -/
def tileN (grid : List (List Nat)) (i j : Nat) : Nat :=
  (grid.getD j []).getD i BRICK

/-- `tile_at(grid, x, y)`: out of bounds reads as `BRICK`. -/
def tile_at (grid : List (List Nat)) (x y : Int) : Nat :=
  if in_bounds grid x y then tileN grid x.toNat y.toNat else BRICK

/-- `set_tile` body (module-level variant; the `Game.set_tile` method just
applies this to `self.grid`): no-op when out of bounds. -/
def set_tile (grid : List (List Nat)) (x y : Int) (t : Nat) : List (List Nat) :=
  if in_bounds grid x y then
    grid.set y.toNat ((grid.getD y.toNat []).set x.toNat t)
  else grid

def is_solid (t : Nat) : Bool := t == BRICK

def is_climbable (t : Nat) : Bool := t == LADDER

def is_rope (t : Nat) : Bool := t == ROPE

/-- `is_walkable`: the player/enemies can occupy these tiles. -/
def is_walkable (t : Nat) : Bool :=
  t == EMPTY || t == LADDER || t == ROPE || t == GOLD || t == EXIT

-- ----------------------------
-- Entities
-- ----------------------------

structure Hole where
  x : Int
  y : Int
  timer : Int
  deriving DecidableEq

structure Player where
  x : Int
  y : Int
  gold : Int
  deriving DecidableEq

structure Enemy where
  x : Int
  y : Int
  respawn : Int × Int
  deriving DecidableEq

-- ----------------------------
-- Core game logic
-- ----------------------------

structure Game where
  grid : List (List Nat)
  player : Player
  enemies : List Enemy
  holes : List Hole
  exit_pos : Int × Int
  won : Bool
  dead : Bool
  countdown : Int
  enemy_frame_counter : Int
  deriving DecidableEq

/-- `Game.reset` (also the state built by `Game.__init__`). -/
def Game.reset : Game :=
  let p := parse_level LEVEL_STR
  let pstart := p.2.1
  { grid := p.1
    player := ⟨pstart.1, pstart.2, 0⟩
    enemies := [⟨pstart.1 + 6, pstart.2 - 6, (pstart.1 + 6, pstart.2 - 6)⟩]
    holes := []
    exit_pos := p.2.2.1
    won := false
    dead := false
    countdown := COUNTDOWN_FRAMES
    enemy_frame_counter := 0 }

/-- `self.tile(x, y)`. -/
def Game.tile (g : Game) (x y : Int) : Nat := tile_at g.grid x y

/-- `self.gravity_applies(x, y)`. -/
def Game.gravity_applies (g : Game) (x y : Int) : Bool :=
  let under := g.tile x (y + 1)
  let here := g.tile x y
  if is_rope here then false
  else if is_climbable here then false
  else !is_solid under && !is_climbable under

/-- `self.try_move(ent, dx, dy)`; in the source this is only ever called with
`ent = self.player`, so it is modelled as moving the player.  Returns the new
state together with the success flag. -/
def Game.try_move (g : Game) (dx dy : Int) : Game × Bool :=
  let nx := g.player.x + dx
  let ny := g.player.y + dy
  if is_walkable (g.tile nx ny) then
    ({ g with player := { g.player with x := nx, y := ny } }, true)
  else (g, false)

/-- `self.try_move_enemy(e, dx, dy)`: enemies are addressed by their index in
`self.enemies` (Python compares object identity `other is not e`, which for
this list equals index inequality). -/
def Game.try_move_enemy (g : Game) (i : Nat) (dx dy : Int) : Game × Bool :=
  match g.enemies.get? i with
  | none => (g, false)
  | some e =>
    let nx := e.x + dx
    let ny := e.y + dy
    if !is_walkable (g.tile nx ny) then (g, false)
    else if g.enemies.enum.any fun p => p.1 != i && p.2.x == nx && p.2.y == ny then
      (g, false)
    else ({ g with enemies := g.enemies.set i { e with x := nx, y := ny } }, true)

/-- `self.collect_gold()`. -/
def Game.collect_gold (g : Game) : Game :=
  if g.tile g.player.x g.player.y == GOLD then
    { g with grid := set_tile g.grid g.player.x g.player.y EMPTY
             player := { g.player with gold := g.player.gold + 1 } }
  else g

/-- `self.dig(direction)`: no status guard (digging is allowed while dead or
during the countdown). -/
def Game.dig (g : Game) (direction : Int) : Game :=
  let px := g.player.x
  let py := g.player.y
  let tx := px + direction
  let ty := py + 1
  if g.tile tx ty != BRICK then g
  else if !is_walkable (g.tile (px + direction) py) then g
  else
    { g with grid := set_tile g.grid tx ty EMPTY
             holes := g.holes ++ [⟨tx, ty, HOLE_REGEN_FRAMES⟩] }

/-- The crush step of `update_holes`: every enemy standing on the regenerating
cell is teleported to its respawn point. -/
def crushAt (enemies : List Enemy) (hx hy : Int) : List Enemy :=
  enemies.map fun e =>
    if e.x == hx && e.y == hy then { e with x := e.respawn.1, y := e.respawn.2 } else e

/-- The `update_holes` pass.  Python iterates over a copy `self.holes[:]` of
the list while mutating each hole's timer in place and calling
`self.holes.remove(h)` (removal of the first value-equal element) on expiry.
Because every already-processed survivor has a strictly positive timer while
an expiring hole has timer `≤ 0`, and pending elements sit after the current
one, `remove` always deletes exactly the element being processed; the pass is
therefore equivalent to this recursion carrying the processed survivors in
`done`. -/
def Game.uhGo : List Hole → List Hole → Game → Game
  | [], done, g => { g with holes := done }
  | h :: rest, done, g =>
    if h.timer - 1 ≤ 0 then
      Game.uhGo rest done
        { g with enemies := crushAt g.enemies h.x h.y
                 grid := set_tile g.grid h.x h.y BRICK }
    else Game.uhGo rest (done ++ [⟨h.x, h.y, h.timer - 1⟩]) g

/-- `self.update_holes()`. -/
def Game.update_holes (g : Game) : Game := Game.uhGo g.holes [] g

/-- The horizontal-chase tail of `enemy_ai_step`: the same-row section
(`if py == ey`) and the fallback section of the source, which attempt the
same moves. -/
def Game.ai_horiz (g : Game) (i : Nat) (px py ex ey : Int) : Game :=
  if py == ey then
    if px < ex then (g.try_move_enemy i (-1) 0).1
    else if px > ex then (g.try_move_enemy i 1 0).1
    else g
  else
    if px < ex then (g.try_move_enemy i (-1) 0).1
    else if px > ex then (g.try_move_enemy i 1 0).1
    else g

/-- `self.enemy_ai_step(e)` for the enemy at index `i`. -/
def Game.enemy_ai_step (g : Game) (i : Nat) : Game :=
  match g.enemies.get? i with
  | none => g
  | some e =>
    let px := g.player.x
    let py := g.player.y
    let ex := e.x
    let ey := e.y
    let here := g.tile ex ey
    let up := g.tile ex (ey - 1)
    let down := g.tile ex (ey + 1)
    if is_climbable here || is_climbable down || is_climbable up then
      if decide (py < ey) && is_walkable up && (is_climbable here || is_climbable up) then
        (g.try_move_enemy i 0 (-1)).1
      else if decide (py > ey) && is_walkable down && (is_climbable here || is_climbable down) then
        (g.try_move_enemy i 0 1).1
      else Game.ai_horiz g i px py ex ey
    else Game.ai_horiz g i px py ex ey

/-- `self.handle_player_move(dx, dy)`. -/
def Game.handle_player_move (g : Game) (dx dy : Int) : Game :=
  if g.won || g.dead || decide (0 < g.countdown) then g
  else
    let blocked :=
      if dy != 0 then
        let current_tile := g.tile g.player.x g.player.y
        let target_tile := g.tile g.player.x (g.player.y + dy)
        if !is_walkable target_tile then
          !(is_climbable current_tile || is_rope current_tile)
        else false
      else false
    if blocked then g
    else
      let g1 :=
        if dx != 0 then
          let mv := g.try_move dx 0
          if mv.2 then mv.1.collect_gold else mv.1
        else g
      let g2 :=
        if dy != 0 then
          let mv := g1.try_move 0 dy
          if mv.2 then mv.1.collect_gold else mv.1
        else g1
      g2

/-- Player-gravity phase of `update_entities`. -/
def Game.applyPlayerGravity (g : Game) : Game :=
  if g.gravity_applies g.player.x g.player.y then (g.try_move 0 1).1 else g

/-- `any(GOLD in row for row in self.grid)`. -/
def anyGold (grid : List (List Nat)) : Bool :=
  grid.any fun row => row.any fun t => t == GOLD

/-- Win-condition phase of `update_entities`. -/
def Game.checkWin (g : Game) : Game :=
  if !anyGold g.grid && ((g.player.x, g.player.y) == g.exit_pos) then
    { g with won := true }
  else g

/-- One enemy's action inside the cadence-gated loop of `update_entities`. -/
def Game.enemyTick (g : Game) (i : Nat) : Game :=
  match g.enemies.get? i with
  | none => g
  | some e =>
    if g.gravity_applies e.x e.y then (g.try_move_enemy i 0 1).1
    else g.enemy_ai_step i

/-- Enemy-movement phase of `update_entities`: advance the cadence counter and
move every enemy only when it reaches `ENEMY_MOVE_INTERVAL`. -/
def Game.moveEnemies (g : Game) : Game :=
  if ENEMY_MOVE_INTERVAL ≤ g.enemy_frame_counter + 1 then
    (List.range g.enemies.length).foldl Game.enemyTick
      { g with enemy_frame_counter := 0 }
  else { g with enemy_frame_counter := g.enemy_frame_counter + 1 }

def anyEnemyAtPlayer (g : Game) : Bool :=
  g.enemies.any fun e => e.x == g.player.x && e.y == g.player.y

/-- Collision phase of `update_entities` (runs every tick, independent of the
cadence counter). -/
def Game.checkCollision (g : Game) : Game :=
  if anyEnemyAtPlayer g then { g with dead := true } else g

/-- `self.update_entities()`. -/
def Game.update_entities (g : Game) : Game :=
  if g.won || g.dead then g
  else if decide (0 < g.countdown) then g
  else
    g.applyPlayerGravity.collect_gold.checkWin.moveEnemies.checkCollision

/-- The countdown decrement at the top of `step`. -/
def Game.decCountdown (g : Game) : Game :=
  if 0 < g.countdown then { g with countdown := g.countdown - 1 } else g

/-- `self.step()`. -/
def Game.step (g : Game) : Game :=
  g.decCountdown.update_holes.update_entities

/-- Iterated `step`. -/
def Game.stepN : Nat → Game → Game
  | 0, g => g
  | n + 1, g => Game.stepN n g.step

-- ----------------------------
-- Intents and reachability
-- ----------------------------

/-- The discrete input events the main loop translates into engine calls:
arrow keys, Z (dig left), X (dig right), R (reset), plus one fixed tick. -/
inductive Act where
  | left
  | right
  | up
  | down
  | digL
  | digR
  | reset
  | tick
  deriving DecidableEq

/-- Apply one event to the engine, exactly as the main loop dispatches it. -/
def applyAct (g : Game) : Act → Game
  | .left => g.handle_player_move (-1) 0
  | .right => g.handle_player_move 1 0
  | .up => g.handle_player_move 0 (-1)
  | .down => g.handle_player_move 0 1
  | .digL => g.dig (-1)
  | .digR => g.dig 1
  | .reset => Game.reset
  | .tick => g.step

/-- The engine state after a history of events, starting from a fresh engine. -/
def run (acts : List Act) : Game := acts.foldl applyAct Game.reset

/-- The grid of the freshly parsed level. -/
def level0 : List (List Nat) := (parse_level LEVEL_STR).1

-- ----------------------------
-- List helper lemmas
-- ----------------------------

theorem getD_set_split {α : Type} (l : List α) (n : Nat) (a d : α) :
    (l.set n a).getD n d = if n < l.length then a else d := by
  induction l generalizing n with
  | nil => simp [List.getD]
  | cons b t ih =>
    cases n with
    | zero => simp [List.set, List.getD]
    | succ m => simpa [List.set, List.getD] using ih m

theorem getD_set_self {α : Type} (l : List α) (n : Nat) (a d : α) (h : n < l.length) :
    (l.set n a).getD n d = a := by
  rw [getD_set_split, if_pos h]

theorem getD_set_other {α : Type} (l : List α) (n m : Nat) (a d : α) (h : n ≠ m) :
    (l.set n a).getD m d = l.getD m d := by
  induction l generalizing n m with
  | nil => simp [List.set]
  | cons b t ih =>
    cases n with
    | zero =>
      cases m with
      | zero => exact absurd rfl h
      | succ k => simp [List.set, List.getD]
    | succ n' =>
      cases m with
      | zero => simp [List.set, List.getD]
      | succ k => simpa [List.set, List.getD] using ih n' k (by omega)

theorem mem_of_mem_set {α : Type} {l : List α} {n : Nat} {a x : α}
    (h : x ∈ l.set n a) : x = a ∨ x ∈ l := by
  induction l generalizing n with
  | nil => simp [List.set] at h
  | cons b t ih =>
    cases n with
    | zero =>
      rcases List.mem_cons.mp h with h1 | h1
      · exact Or.inl h1
      · exact Or.inr (List.mem_cons_of_mem _ h1)
    | succ m =>
      rcases List.mem_cons.mp h with h1 | h1
      · exact Or.inr (h1 ▸ List.mem_cons_self _ _)
      · rcases ih h1 with h2 | h2
        · exact Or.inl h2
        · exact Or.inr (List.mem_cons_of_mem _ h2)

theorem getD_mem {α : Type} (l : List α) (n : Nat) (d : α) (h : n < l.length) :
    l.getD n d ∈ l := by
  induction l generalizing n with
  | nil => simp at h
  | cons b t ih =>
    cases n with
    | zero => simp [List.getD]
    | succ m =>
      simp only [List.getD_cons_succ]
      exact List.mem_cons_of_mem _ (ih m (by simpa using h))

theorem headD_eq_getD {α : Type} (l : List α) (d : α) : l.headD d = l.getD 0 d := by
  cases l <;> rfl

-- ----------------------------
-- Grid well-formedness and concrete level facts
-- ----------------------------

/-- Bounds check against the fixed 20 x 17 dimensions of the parsed level. -/
def inB (x y : Int) : Bool := 0 ≤ x && x < 20 && 0 ≤ y && y < 17

/-- The grid has the level's dimensions. -/
def Dims (grid : List (List Nat)) : Prop :=
  grid.length = 17 ∧ ∀ row ∈ grid, row.length = 20

theorem lvl_dims : Dims level0 := by
  constructor
  · decide
  · decide

theorem dims_in_bounds {grid : List (List Nat)} (h : Dims grid) (x y : Int) :
    in_bounds grid x y = inB x y := by
  have hh : ((grid.headD []).length : Int) = 20 := by
    have h0 : (0 : Nat) < grid.length := by rw [h.1]; omega
    have := h.2 (grid.getD 0 []) (getD_mem grid 0 [] h0)
    rw [headD_eq_getD, this]
    rfl
  simp only [in_bounds, inB, h.1, hh]
  by_cases h1 : (0 : Int) ≤ y <;> by_cases h2 : y < 17 <;> by_cases h3 : (0 : Int) ≤ x <;>
    by_cases h4 : x < 20 <;> simp [h1, h2, h3, h4]

theorem tile_at_oob {grid : List (List Nat)} {x y : Int}
    (h : in_bounds grid x y = false) : tile_at grid x y = BRICK := by
  simp [tile_at, h]

theorem tile_at_inb {grid : List (List Nat)} {x y : Int}
    (h : in_bounds grid x y = true) : tile_at grid x y = tileN grid x.toNat y.toNat := by
  simp [tile_at, h]

theorem inB_bounds {x y : Int} (h : inB x y = true) :
    0 ≤ x ∧ x < 20 ∧ 0 ≤ y ∧ y < 17 := by
  simp only [inB, Bool.and_eq_true, decide_eq_true_eq] at h
  exact ⟨h.1.1.1, h.1.1.2, h.1.2, h.2⟩

/-- Concrete facts about the parsed level, all by evaluation. -/
theorem lvl_col0 : ∀ j, j < 17 → tileN level0 0 j = BRICK := by decide

theorem lvl_col19 : ∀ j, j < 17 → tileN level0 19 j = BRICK := by decide

theorem lvl_row0 : ∀ i, i < 20 → tileN level0 i 0 = BRICK := by decide

theorem lvl_row16 : ∀ i, i < 20 → tileN level0 i 16 = BRICK := by decide

theorem lvl_row15 : ∀ i, i < 19 → 1 ≤ i → tileN level0 i 15 = EMPTY := by decide

theorem lvl_row14_noclimb : ∀ i, i < 19 → 1 ≤ i → is_climbable (tileN level0 i 14) = false := by
  decide

theorem lvl_col17 : ∀ j, j < 16 → 9 ≤ j → tileN level0 17 j = EMPTY := by decide

theorem lvl_brick_border : ∀ i, i < 20 → ∀ j, j < 17 →
    tileN level0 i j = BRICK → i = 0 ∨ i = 19 ∨ j = 0 ∨ j = 16 := by decide

/-- Concrete facts about the freshly constructed engine. -/
theorem reset_grid : Game.reset.grid = level0 := rfl

theorem reset_player : Game.reset.player = ⟨11, 15, 0⟩ := by decide

theorem reset_enemies : Game.reset.enemies = [⟨17, 9, (17, 9)⟩] := by decide

theorem reset_exit : Game.reset.exit_pos = (13, 11) := by decide

theorem reset_holes : Game.reset.holes = [] := rfl

theorem reset_flags : Game.reset.won = false ∧ Game.reset.dead = false ∧
    Game.reset.countdown = 300 ∧ Game.reset.enemy_frame_counter = 0 := by decide

-- ----------------------------
-- set_tile / tile_at interaction
-- ----------------------------

theorem in_bounds_elim {grid : List (List Nat)} {x y : Int} (h : in_bounds grid x y = true) :
    0 ≤ y ∧ y < (grid.length : Int) ∧ 0 ≤ x ∧ x < ((grid.headD []).length : Int) := by
  simp only [in_bounds, Bool.and_eq_true, decide_eq_true_eq] at h
  exact ⟨h.1.1.1, h.1.1.2, h.1.2, h.2⟩

theorem dims_headD {grid : List (List Nat)} (h : Dims grid) : (grid.headD []).length = 20 := by
  have h0 : (0 : Nat) < grid.length := by rw [h.1]; omega
  have := h.2 (grid.getD 0 []) (getD_mem grid 0 [] h0)
  rw [headD_eq_getD, this]

theorem length_set_tile (grid : List (List Nat)) (x y : Int) (t : Nat) :
    (set_tile grid x y t).length = grid.length := by
  unfold set_tile
  split
  · exact List.length_set ..
  · rfl

theorem length_headD_set_tile (grid : List (List Nat)) (x y : Int) (t : Nat) :
    ((set_tile grid x y t).headD []).length = (grid.headD []).length := by
  unfold set_tile
  split
  · rw [headD_eq_getD, headD_eq_getD]
    rcases eq_or_ne y.toNat 0 with h0 | h0
    · rw [h0, getD_set_split]
      split
      · exact List.length_set ..
      · rename_i hlen
        have hz : grid.length = 0 := by omega
        rw [List.length_eq_zero.mp hz]
        rfl
    · rw [getD_set_other _ _ _ _ _ h0]
  · rfl

theorem in_bounds_set_tile (grid : List (List Nat)) (x y : Int) (t : Nat) (a b : Int) :
    in_bounds (set_tile grid x y t) a b = in_bounds grid a b := by
  unfold in_bounds
  rw [length_set_tile, length_headD_set_tile]

theorem dims_set_tile {grid : List (List Nat)} (h : Dims grid) (x y : Int) (t : Nat) :
    Dims (set_tile grid x y t) := by
  refine ⟨by rw [length_set_tile, h.1], ?_⟩
  intro row hrow
  unfold set_tile at hrow
  split at hrow
  · rcases mem_of_mem_set hrow with h1 | h1
    · rename_i hin
      obtain ⟨hy0, hyl, hx0, hxl⟩ := in_bounds_elim hin
      rw [h1, List.length_set]
      exact h.2 _ (getD_mem _ _ _ (by omega))
    · exact h.2 _ h1
  · exact h.2 _ hrow

theorem tile_at_set_tile_ne (grid : List (List Nat)) (x y : Int) (t : Nat) (a b : Int)
    (h : ¬(a = x ∧ b = y)) :
    tile_at (set_tile grid x y t) a b = tile_at grid a b := by
  unfold tile_at
  rw [in_bounds_set_tile]
  split
  · rename_i hin
    obtain ⟨hb0, hbl, ha0, hal⟩ := in_bounds_elim hin
    unfold set_tile
    split
    · rename_i hin2
      obtain ⟨hy0, hyl, hx0, hxl⟩ := in_bounds_elim hin2
      unfold tileN
      rcases eq_or_ne y.toNat b.toNat with hy | hy
      · have hyb : y = b := by omega
        have hxa : ¬(a = x) := fun hc => h ⟨hc, hyb.symm⟩
        rw [← hy, getD_set_split, if_pos (by omega : y.toNat < grid.length)]
        rw [getD_set_other _ _ _ _ _ (by omega : x.toNat ≠ a.toNat)]
      · rw [getD_set_other _ _ _ _ _ hy]
    · rfl
  · rfl

theorem tile_at_set_tile_self {grid : List (List Nat)} (hdims : Dims grid) {x y : Int} (t : Nat)
    (hin : in_bounds grid x y = true) :
    tile_at (set_tile grid x y t) x y = t := by
  unfold tile_at
  rw [in_bounds_set_tile, if_pos hin]
  obtain ⟨hy0, hyl, hx0, hxl⟩ := in_bounds_elim hin
  unfold set_tile
  rw [if_pos hin]
  unfold tileN
  rw [getD_set_self _ _ _ _ (by omega : y.toNat < grid.length)]
  have hrow : (grid.getD y.toNat []).length = 20 :=
    hdims.2 _ (getD_mem _ _ _ (by omega))
  have hhd := dims_headD hdims
  exact getD_set_self _ _ _ _ (by omega)

theorem tile_at_set_brick (grid : List (List Nat)) (x y : Int) :
    tile_at (set_tile grid x y BRICK) x y = BRICK := by
  unfold tile_at
  rw [in_bounds_set_tile]
  split
  · rename_i hin
    obtain ⟨hy0, hyl, hx0, hxl⟩ := in_bounds_elim hin
    unfold set_tile
    rw [if_pos hin]
    unfold tileN
    rw [getD_set_self _ _ _ _ (by omega : y.toNat < grid.length)]
    rw [getD_set_split]
    split
    · rfl
    · rfl
  · rfl

-- ----------------------------
-- The reachability invariant
-- ----------------------------

/-- Per-cell relation of a reachable grid to the freshly parsed level: either
unchanged, or a collected gold cell, or a dug-out brick in the bottom brick
row. -/
def CellOK (grid : List (List Nat)) (x y : Int) : Prop :=
  tile_at grid x y = tile_at level0 x y ∨
  (tile_at level0 x y = GOLD ∧ tile_at grid x y = EMPTY) ∨
  (y = 16 ∧ 1 ≤ x ∧ x ≤ 18 ∧ tile_at level0 x y = BRICK ∧ tile_at grid x y = EMPTY)

def Cells (grid : List (List Nat)) : Prop := ∀ x y : Int, CellOK grid x y

/-- Coordinate pairs of the recorded holes. -/
def coordsOf (hs : List Hole) : List (Int × Int) := hs.map fun h => (h.x, h.y)

/-- Two recorded holes that are both in bounds never share a cell. -/
def hRel (a b : Int × Int) : Prop := inB a.1 a.2 = true → inB b.1 b.2 = true → a ≠ b

/-- Every in-bounds hole sits in the bottom brick row on a currently empty
cell, and in-bounds holes are pairwise at distinct cells. -/
def HolesOK (grid : List (List Nat)) (hs : List Hole) : Prop :=
  (∀ h ∈ hs, inB h.x h.y = true →
    h.y = 16 ∧ 1 ≤ h.x ∧ h.x ≤ 18 ∧ tile_at grid h.x h.y = EMPTY) ∧
  (coordsOf hs).Pairwise hRel

/-- The single enemy's reachable region: falling down column 17 from its
spawn, or on the floor row / inside a dug hole in the bottom row. -/
def EnemyOK (e : Enemy) : Prop :=
  e.respawn = (17, 9) ∧
  ((e.x = 17 ∧ 9 ≤ e.y ∧ e.y ≤ 14) ∨ (15 ≤ e.y ∧ e.y ≤ 16 ∧ 1 ≤ e.x ∧ e.x ≤ 18))

def EnemiesOK (es : List Enemy) : Prop := ∀ e ∈ es, EnemyOK e

def PlayerOK (p : Player) : Prop := 1 ≤ p.x ∧ p.x ≤ 18 ∧ 1 ≤ p.y ∧ p.y ≤ 16

/-- The inductive invariant of reachable engine states. -/
structure EngineInv (s : Game) : Prop where
  dims : Dims s.grid
  cells : Cells s.grid
  holes : HolesOK s.grid s.holes
  enems : EnemiesOK s.enemies
  ppos : PlayerOK s.player
  epos : s.exit_pos = (13, 11)
  start : 0 < s.countdown → s.won = false ∧ s.dead = false ∧
    s.player.x = 11 ∧ s.player.y = 15 ∧ s.enemies = [⟨17, 9, (17, 9)⟩]
  flags : s.won = true → s.dead = false

-- ----------------------------
-- Derived tile facts under the invariant
-- ----------------------------

theorem inB_true_of_bounds {x y : Int} (h : 0 ≤ x ∧ x < 20 ∧ 0 ≤ y ∧ y < 17) :
    inB x y = true := by
  simp only [inB, Bool.and_eq_true, decide_eq_true_eq]
  exact ⟨⟨⟨h.1, h.2.1⟩, h.2.2.1⟩, h.2.2.2⟩

theorem tile_at_level0_toN {x y : Int} (hx : 0 ≤ x) (hx2 : x < 20) (hy : 0 ≤ y) (hy2 : y < 17) :
    tile_at level0 x y = tileN level0 x.toNat y.toNat := by
  apply tile_at_inb
  rw [dims_in_bounds lvl_dims]
  exact inB_true_of_bounds ⟨hx, hx2, hy, hy2⟩

theorem tile_border {grid : List (List Nat)} (hd : Dims grid) (hc : Cells grid) {x y : Int}
    (hin : inB x y = true) (hb : x = 0 ∨ x = 19 ∨ y = 0) : tile_at grid x y = BRICK := by
  obtain ⟨hx0, hx2, hy0, hy2⟩ := inB_bounds hin
  have ht0 : tile_at level0 x y = BRICK := by
    rw [tile_at_level0_toN hx0 hx2 hy0 hy2]
    rcases hb with h | h | h
    · have : x.toNat = 0 := by omega
      rw [this]
      exact lvl_col0 y.toNat (by omega)
    · have : x.toNat = 19 := by omega
      rw [this]
      exact lvl_col19 y.toNat (by omega)
    · have : y.toNat = 0 := by omega
      rw [this]
      exact lvl_row0 x.toNat (by omega)
  rcases hc x y with h1 | h2 | h3
  · rw [h1, ht0]
  · have : BRICK = GOLD := ht0 ▸ h2.1
    exact absurd this (by decide)
  · have : BRICK = GOLD ∨ BRICK = BRICK := Or.inr rfl
    rcases hb with h | h | h
    · omega
    · omega
    · omega

theorem cell_resolve {grid : List (List Nat)} (hc : Cells grid) {x y : Int} {t0 : Nat}
    (ht0 : tile_at level0 x y = t0) (hne : t0 ≠ GOLD) (hnb : t0 ≠ BRICK ∨ ¬(y = 16)) :
    tile_at grid x y = t0 := by
  rcases hc x y with h1 | h2 | h3
  · rw [h1, ht0]
  · rw [ht0] at h2
    exact absurd h2.1 hne
  · rw [ht0] at h3
    rcases hnb with h | h
    · exact absurd h3.2.2.2.1 h
    · exact absurd h3.1 h

theorem tile_row15 {grid : List (List Nat)} (hd : Dims grid) (hc : Cells grid) {x : Int}
    (h1 : 1 ≤ x) (h2 : x ≤ 18) : tile_at grid x 15 = EMPTY := by
  refine cell_resolve hc ?_ (by decide) (Or.inr (by omega))
  rw [tile_at_level0_toN (by omega) (by omega) (by omega) (by omega)]
  exact lvl_row15 x.toNat (by omega) (by omega)

theorem tile_row16 {grid : List (List Nat)} (hd : Dims grid) (hc : Cells grid) (x : Int) :
    tile_at grid x 16 = BRICK ∨ tile_at grid x 16 = EMPTY := by
  by_cases hin : inB x 16 = true
  · obtain ⟨hx0, hx2, _, _⟩ := inB_bounds hin
    have ht0 : tile_at level0 x 16 = BRICK := by
      rw [tile_at_level0_toN (by omega) (by omega) (by omega) (by omega)]
      exact lvl_row16 x.toNat (by omega)
    rcases hc x 16 with h1 | h2 | h3
    · rw [h1, ht0]
      exact Or.inl rfl
    · have : BRICK = GOLD := ht0 ▸ h2.1
      exact absurd this (by decide)
    · exact Or.inr h3.2.2.2.2
  · left
    apply tile_at_oob
    rw [dims_in_bounds hd]
    exact Bool.not_eq_true _ ▸ (by simpa using hin)

theorem tile_row14_noclimb {grid : List (List Nat)} (hd : Dims grid) (hc : Cells grid) {x : Int}
    (h1 : 1 ≤ x) (h2 : x ≤ 18) : is_climbable (tile_at grid x 14) = false := by
  have ht0 : is_climbable (tileN level0 x.toNat 14) = false :=
    lvl_row14_noclimb x.toNat (by omega) (by omega)
  have hl0 : tile_at level0 x 14 = tileN level0 x.toNat 14 := by
    rw [tile_at_level0_toN (by omega) (by omega) (by omega) (by omega)]
    rfl
  rcases hc x 14 with hcc | hcc | hcc
  · rw [hcc, hl0]
    exact ht0
  · rw [hcc.2]
    decide
  · omega

theorem tile_col17 {grid : List (List Nat)} (hd : Dims grid) (hc : Cells grid) {y : Int}
    (h1 : 9 ≤ y) (h2 : y ≤ 15) : tile_at grid 17 y = EMPTY := by
  refine cell_resolve hc ?_ (by decide) (Or.inr (by omega))
  rw [tile_at_level0_toN (by omega) (by omega) (by omega) (by omega)]
  have : (17 : Int).toNat = 17 := by omega
  rw [this]
  exact lvl_col17 y.toNat (by omega) (by omega)

theorem tile_y17 {grid : List (List Nat)} (hd : Dims grid) (x : Int) :
    tile_at grid x 17 = BRICK := by
  apply tile_at_oob
  rw [dims_in_bounds hd]
  simp [inB]

theorem walkable_bounds {grid : List (List Nat)} (hd : Dims grid) (hc : Cells grid) {x y : Int}
    (hw : is_walkable (tile_at grid x y) = true) :
    1 ≤ x ∧ x ≤ 18 ∧ 1 ≤ y ∧ y ≤ 16 := by
  have hne : tile_at grid x y ≠ BRICK := by
    intro hbr
    rw [hbr] at hw
    exact absurd hw (by decide)
  cases hin : in_bounds grid x y with
  | false => exact absurd (tile_at_oob hin) hne
  | true =>
    rw [dims_in_bounds hd] at hin
    obtain ⟨hx0, hx2, hy0, hy2⟩ := inB_bounds hin
    have e1 : x ≠ 0 := fun h => hne (tile_border hd hc hin (Or.inl h))
    have e2 : x ≠ 19 := fun h => hne (tile_border hd hc hin (Or.inr (Or.inl h)))
    have e3 : y ≠ 0 := fun h => hne (tile_border hd hc hin (Or.inr (Or.inr h)))
    omega

-- ----------------------------
-- Frame and characterization lemmas for the operations
-- ----------------------------

theorem try_move_frame (g : Game) (dx dy : Int) :
    (g.try_move dx dy).1.grid = g.grid ∧ (g.try_move dx dy).1.holes = g.holes ∧
    (g.try_move dx dy).1.enemies = g.enemies ∧ (g.try_move dx dy).1.exit_pos = g.exit_pos ∧
    (g.try_move dx dy).1.won = g.won ∧ (g.try_move dx dy).1.dead = g.dead ∧
    (g.try_move dx dy).1.countdown = g.countdown ∧
    (g.try_move dx dy).1.enemy_frame_counter = g.enemy_frame_counter ∧
    (g.try_move dx dy).1.player.gold = g.player.gold := by
  cases hw : is_walkable (g.tile (g.player.x + dx) (g.player.y + dy)) <;>
    simp [Game.try_move, hw]

theorem try_move_cases (g : Game) (dx dy : Int) :
    (g.try_move dx dy).1 = g ∨
    (is_walkable (tile_at g.grid (g.player.x + dx) (g.player.y + dy)) = true ∧
      (g.try_move dx dy).1.player.x = g.player.x + dx ∧
      (g.try_move dx dy).1.player.y = g.player.y + dy) := by
  cases hw : is_walkable (g.tile (g.player.x + dx) (g.player.y + dy))
  · left
    simp [Game.try_move, hw]
  · right
    refine ⟨by simpa [Game.tile] using hw, ?_, ?_⟩ <;> simp [Game.try_move, hw]

theorem collect_frame (g : Game) :
    g.collect_gold.player.x = g.player.x ∧ g.collect_gold.player.y = g.player.y ∧
    g.collect_gold.holes = g.holes ∧ g.collect_gold.enemies = g.enemies ∧
    g.collect_gold.exit_pos = g.exit_pos ∧ g.collect_gold.won = g.won ∧
    g.collect_gold.dead = g.dead ∧ g.collect_gold.countdown = g.countdown ∧
    g.collect_gold.enemy_frame_counter = g.enemy_frame_counter := by
  unfold Game.collect_gold
  split <;> simp

theorem collect_grid_cases (g : Game) :
    g.collect_gold.grid = g.grid ∨
    (tile_at g.grid g.player.x g.player.y = GOLD ∧
      g.collect_gold.grid = set_tile g.grid g.player.x g.player.y EMPTY) := by
  unfold Game.collect_gold
  split
  · rename_i hg
    refine Or.inr ⟨?_, rfl⟩
    simpa [Game.tile] using hg
  · exact Or.inl rfl

theorem collect_inv {g : Game} (hd : Dims g.grid) (hc : Cells g.grid)
    (hh : HolesOK g.grid g.holes) :
    Dims g.collect_gold.grid ∧ Cells g.collect_gold.grid ∧
    HolesOK g.collect_gold.grid g.collect_gold.holes := by
  have hholes : g.collect_gold.holes = g.holes := (collect_frame g).2.2.1
  rcases collect_grid_cases g with hgr | ⟨hgold, hgr⟩
  · rw [hgr, hholes]
    exact ⟨hd, hc, hh⟩
  · rw [hgr, hholes]
    have hin : in_bounds g.grid g.player.x g.player.y = true := by
      cases hib : in_bounds g.grid g.player.x g.player.y with
      | false =>
        rw [tile_at_oob hib] at hgold
        exact absurd hgold (by decide)
      | true => rfl
    refine ⟨dims_set_tile hd _ _ _, ?_, ?_, hh.2⟩
    · intro x y
      by_cases hxy : x = g.player.x ∧ y = g.player.y
      · rw [hxy.1, hxy.2]
        unfold CellOK
        rw [tile_at_set_tile_self hd EMPTY hin]
        rcases hc g.player.x g.player.y with h1 | h2 | h3
        · exact Or.inr (Or.inl ⟨h1 ▸ hgold, rfl⟩)
        · rw [h2.2] at hgold
          exact absurd hgold (by decide)
        · rw [h3.2.2.2.2] at hgold
          exact absurd hgold (by decide)
      · unfold CellOK
        rw [tile_at_set_tile_ne _ _ _ _ _ _ hxy]
        exact hc x y
    · intro h hmem hinh
      obtain ⟨h1, h2, h3, h4⟩ := hh.1 h hmem hinh
      refine ⟨h1, h2, h3, ?_⟩
      have hne : ¬(h.x = g.player.x ∧ h.y = g.player.y) := by
        intro hc2
        rw [hc2.1, hc2.2, hgold] at h4
        exact absurd h4 (by decide)
      rw [tile_at_set_tile_ne _ _ _ _ _ _ hne]
      exact h4

-- ----------------------------
-- dig: characterization and invariant preservation
-- ----------------------------

/-- The dig preconditions: target diagonal cell reads `Brick`, and the side
cell at the player's own row is occupiable. -/
def digPre (g : Game) (d : Int) : Prop :=
  tile_at g.grid (g.player.x + d) (g.player.y + 1) = BRICK ∧
  is_walkable (tile_at g.grid (g.player.x + d) g.player.y) = true

instance (g : Game) (d : Int) : Decidable (digPre g d) := by
  unfold digPre
  infer_instance

theorem dig_eq_pos {g : Game} {d : Int} (h : digPre g d) :
    g.dig d = { g with grid := set_tile g.grid (g.player.x + d) (g.player.y + 1) EMPTY
                       holes := g.holes ++ [⟨g.player.x + d, g.player.y + 1, HOLE_REGEN_FRAMES⟩] } := by
  have h1 := h.1
  have h2 := h.2
  simp only [Game.dig, Game.tile]
  rw [h1]
  simp [h2]

theorem dig_eq_neg {g : Game} {d : Int} (h : ¬digPre g d) : g.dig d = g := by
  by_cases h1 : tile_at g.grid (g.player.x + d) (g.player.y + 1) = BRICK
  · by_cases h2 : is_walkable (tile_at g.grid (g.player.x + d) g.player.y) = true
    · exact absurd ⟨h1, h2⟩ h
    · simp only [Game.dig, Game.tile]
      rw [h1]
      simp only [bne_self_eq_false, Bool.false_eq_true, if_false]
      rw [if_pos]
      simp [Bool.not_eq_true] at h2
      simp [h2]
  · simp only [Game.dig, Game.tile]
    rw [if_pos]
    simp [bne_iff_ne, h1]

/-- When dig succeeds, the target is either out of bounds (and the grid write
is a silent no-op) or it lies in the bottom brick row with `1 ≤ x ≤ 18`. -/
theorem dig_target_classify {g : Game} {d : Int} (hI : EngineInv g) (h : digPre g d)
    (hin : inB (g.player.x + d) (g.player.y + 1) = true) :
    g.player.y + 1 = 16 ∧ 1 ≤ g.player.x + d ∧ g.player.x + d ≤ 18 := by
  obtain ⟨hx0, hx2, hy0, hy2⟩ := inB_bounds hin
  obtain ⟨hp1, hp2, hp3, hp4⟩ := hI.ppos
  have ht0 : tile_at level0 (g.player.x + d) (g.player.y + 1) = BRICK := by
    rcases hI.cells (g.player.x + d) (g.player.y + 1) with h1 | h2 | h3
    · rw [← h1]
      exact h.1
    · rw [h.1] at h2
      exact absurd h2.2 (by decide)
    · rw [h.1] at h3
      exact absurd h3.2.2.2.2 (by decide)
  -- the side cell excludes a border column
  have hxne0 : g.player.x + d ≠ 0 := by
    intro hx
    have hside : tile_at g.grid (g.player.x + d) g.player.y = BRICK := by
      refine tile_border hI.dims hI.cells ?_ (Or.inl hx)
      exact inB_true_of_bounds ⟨by omega, by omega, by omega, by omega⟩
    have h2 := h.2
    rw [hside] at h2
    exact absurd h2 (by decide)
  have hxne19 : g.player.x + d ≠ 19 := by
    intro hx
    have hside : tile_at g.grid (g.player.x + d) g.player.y = BRICK := by
      refine tile_border hI.dims hI.cells ?_ (Or.inr (Or.inl hx))
      exact inB_true_of_bounds ⟨by omega, by omega, by omega, by omega⟩
    have h2 := h.2
    rw [hside] at h2
    exact absurd h2 (by decide)
  have hcls := lvl_brick_border (g.player.x + d).toNat (by omega) (g.player.y + 1).toNat
    (by omega) (by rw [← tile_at_level0_toN (by omega) (by omega) (by omega) (by omega)]; exact ht0)
  omega

theorem dig_inv {g : Game} (hI : EngineInv g) (d : Int) : EngineInv (g.dig d) := by
  by_cases hpre : digPre g d
  · rw [dig_eq_pos hpre]
    by_cases hin : inB (g.player.x + d) (g.player.y + 1) = true
    · obtain ⟨hty, htx1, htx2⟩ := dig_target_classify hI hpre hin
      have hinb : in_bounds g.grid (g.player.x + d) (g.player.y + 1) = true := by
        rw [dims_in_bounds hI.dims]
        exact hin
      refine ⟨dims_set_tile hI.dims _ _ _, ?_, ⟨?_, ?_⟩, hI.enems, hI.ppos, hI.epos, hI.start, hI.flags⟩
      · intro x y
        by_cases hxy : x = g.player.x + d ∧ y = g.player.y + 1
        · rw [hxy.1, hxy.2]
          unfold CellOK
          rw [tile_at_set_tile_self hI.dims EMPTY hinb]
          refine Or.inr (Or.inr ⟨hty, htx1, htx2, ?_, rfl⟩)
          rcases hI.cells (g.player.x + d) (g.player.y + 1) with h1 | h2 | h3
          · rw [← h1]
            exact hpre.1
          · rw [hpre.1] at h2
            exact absurd h2.2 (by decide)
          · rw [hpre.1] at h3
            exact absurd h3.2.2.2.2 (by decide)
        · unfold CellOK
          rw [tile_at_set_tile_ne _ _ _ _ _ _ hxy]
          exact hI.cells x y
      · intro h hmem hinh
        rcases List.mem_append.mp hmem with hold | hnew
        · obtain ⟨h1, h2, h3, h4⟩ := hI.holes.1 h hold hinh
          refine ⟨h1, h2, h3, ?_⟩
          have hne : ¬(h.x = g.player.x + d ∧ h.y = g.player.y + 1) := by
            intro heq
            rw [heq.1, heq.2, hpre.1] at h4
            exact absurd h4 (by decide)
          rw [tile_at_set_tile_ne _ _ _ _ _ _ hne]
          exact h4
        · have hh : h = ⟨g.player.x + d, g.player.y + 1, HOLE_REGEN_FRAMES⟩ := by
            simpa using hnew
          rw [hh]
          exact ⟨hty, htx1, htx2, tile_at_set_tile_self hI.dims EMPTY hinb⟩
      · show (coordsOf (g.holes ++ [⟨g.player.x + d, g.player.y + 1, HOLE_REGEN_FRAMES⟩])).Pairwise hRel
        unfold coordsOf
        rw [List.map_append, List.pairwise_append]
        refine ⟨hI.holes.2, by simp, ?_⟩
        intro a ha b hb
        simp only [List.map_cons, List.map_nil, List.mem_singleton] at hb
        intro hinA hinB
        rw [hb]
        obtain ⟨hh, hhmem, hha⟩ := List.mem_map.mp ha
        intro heq
        have h4 := (hI.holes.1 hh hhmem (by rw [← hha] at hinA; exact hinA)).2.2.2
        have hx : hh.x = g.player.x + d ∧ hh.y = g.player.y + 1 := by
          have : (hh.x, hh.y) = (g.player.x + d, g.player.y + 1) := by rw [hha, heq]
          exact ⟨congrArg Prod.fst this, congrArg Prod.snd this⟩
        rw [hx.1, hx.2, hpre.1] at h4
        exact absurd h4 (by decide)
    · -- out-of-bounds target: the grid write is a no-op
      have hgr : set_tile g.grid (g.player.x + d) (g.player.y + 1) EMPTY = g.grid := by
        unfold set_tile
        rw [if_neg]
        rw [dims_in_bounds hI.dims]
        simpa using hin
      refine ⟨by rw [hgr]; exact hI.dims, by rw [hgr]; exact hI.cells, ⟨?_, ?_⟩,
        hI.enems, hI.ppos, hI.epos, hI.start, hI.flags⟩
      · intro h hmem hinh
        rcases List.mem_append.mp hmem with hold | hnew
        · rw [hgr]
          exact hI.holes.1 h hold hinh
        · have hh : h = ⟨g.player.x + d, g.player.y + 1, HOLE_REGEN_FRAMES⟩ := by
            simpa using hnew
          rw [hh] at hinh
          exact absurd hinh (by simpa using hin)
      · show (coordsOf (g.holes ++ [⟨g.player.x + d, g.player.y + 1, HOLE_REGEN_FRAMES⟩])).Pairwise hRel
        unfold coordsOf
        rw [List.map_append, List.pairwise_append]
        refine ⟨hI.holes.2, by simp, ?_⟩
        intro a ha b hb
        simp only [List.map_cons, List.map_nil, List.mem_singleton] at hb
        intro hinA hinB
        rw [hb] at hinB
        exact absurd hinB (by simpa using hin)
  · rw [dig_eq_neg hpre]
    exact hI

-- ----------------------------
-- handle_player_move: invariant preservation
-- ----------------------------

theorem try_move_snd_false {g : Game} {dx dy : Int} (h : (g.try_move dx dy).2 = false) :
    (g.try_move dx dy).1 = g := by
  cases hw : is_walkable (g.tile (g.player.x + dx) (g.player.y + dy))
  · simp [Game.try_move, hw]
  · simp [Game.try_move, hw] at h

theorem try_move_snd_true {g : Game} {dx dy : Int} (h : (g.try_move dx dy).2 = true) :
    is_walkable (tile_at g.grid (g.player.x + dx) (g.player.y + dy)) = true ∧
    (g.try_move dx dy).1 =
      { g with player := { g.player with x := g.player.x + dx, y := g.player.y + dy } } := by
  cases hw : is_walkable (g.tile (g.player.x + dx) (g.player.y + dy))
  · simp [Game.try_move, hw] at h
  · exact ⟨hw, by simp [Game.try_move, hw]⟩

theorem collect_inv_full {g : Game} (hI : EngineInv g) (hcd : ¬0 < g.countdown) :
    EngineInv g.collect_gold := by
  obtain ⟨hd, hc, hh⟩ := collect_inv hI.dims hI.cells hI.holes
  have fr := collect_frame g
  refine ⟨hd, hc, hh, ?_, ?_, ?_, ?_, ?_⟩
  · rw [fr.2.2.2.1]
    exact hI.enems
  · unfold PlayerOK
    rw [fr.1, fr.2.1]
    exact hI.ppos
  · rw [fr.2.2.2.2.1]
    exact hI.epos
  · intro hcon
    rw [fr.2.2.2.2.2.2.2.1] at hcon
    exact absurd hcon hcd
  · rw [fr.2.2.2.2.2.1, fr.2.2.2.2.2.2.1]
    exact hI.flags

theorem phase_inv {g : Game} (hI : EngineInv g) (hcd : ¬0 < g.countdown) (dx dy : Int) :
    EngineInv (if (g.try_move dx dy).2 = true then (g.try_move dx dy).1.collect_gold
      else (g.try_move dx dy).1) ∧
    (if (g.try_move dx dy).2 = true then (g.try_move dx dy).1.collect_gold
      else (g.try_move dx dy).1).countdown = g.countdown := by
  cases h2 : (g.try_move dx dy).2
  · rw [if_neg (by simp), try_move_snd_false h2]
    exact ⟨hI, rfl⟩
  · rw [if_pos rfl]
    obtain ⟨hw, heq⟩ := try_move_snd_true h2
    have hbd := walkable_bounds hI.dims hI.cells hw
    have hI1 : EngineInv (g.try_move dx dy).1 := by
      rw [heq]
      refine ⟨hI.dims, hI.cells, hI.holes, hI.enems, ?_, hI.epos, ?_, hI.flags⟩
      · exact ⟨hbd.1, hbd.2.1, hbd.2.2.1, hbd.2.2.2⟩
      · intro hcon
        exact absurd hcon hcd
    have hcd1 : ¬0 < (g.try_move dx dy).1.countdown := by
      rw [(try_move_frame g dx dy).2.2.2.2.2.2.1]
      exact hcd
    refine ⟨collect_inv_full hI1 hcd1, ?_⟩
    rw [(collect_frame _).2.2.2.2.2.2.2.1, (try_move_frame g dx dy).2.2.2.2.2.2.1]

theorem hpm_inv {g : Game} (hI : EngineInv g) (dx dy : Int) :
    EngineInv (g.handle_player_move dx dy) := by
  by_cases hguard : (g.won || g.dead || decide (0 < g.countdown)) = true
  · unfold Game.handle_player_move
    rw [if_pos hguard]
    exact hI
  · have hcd : ¬0 < g.countdown := by
      simp only [Bool.or_eq_true, decide_eq_true_eq, not_or] at hguard
      exact hguard.2
    have hbody : ∀ g1 : Game, EngineInv g1 → g1.countdown = g.countdown →
        EngineInv (if (dy != 0) = true then
          (if (g1.try_move 0 dy).2 = true then (g1.try_move 0 dy).1.collect_gold
            else (g1.try_move 0 dy).1) else g1) := by
      intro g1 hI1 hc1
      split
      · exact (phase_inv hI1 (by rw [hc1]; exact hcd) 0 dy).1
      · exact hI1
    have hphase1 : EngineInv (if (dx != 0) = true then
        (if (g.try_move dx 0).2 = true then (g.try_move dx 0).1.collect_gold
          else (g.try_move dx 0).1) else g) ∧
        (if (dx != 0) = true then
        (if (g.try_move dx 0).2 = true then (g.try_move dx 0).1.collect_gold
          else (g.try_move dx 0).1) else g).countdown = g.countdown := by
      split
      · exact phase_inv hI hcd dx 0
      · exact ⟨hI, rfl⟩
    unfold Game.handle_player_move
    rw [if_neg hguard]
    simp only []
    split
    · rename_i hdy
      split
      · split
        · exact hI
        · have := hbody _ hphase1.1 hphase1.2
          rw [if_pos hdy] at this
          exact this
      · rw [if_neg (by simp : ¬(false = true))]
        have := hbody _ hphase1.1 hphase1.2
        rw [if_pos hdy] at this
        exact this
    · rename_i hdy
      rw [if_neg (by simp : ¬(false = true))]
      have := hbody _ hphase1.1 hphase1.2
      rw [if_neg hdy] at this
      exact this

-- ----------------------------
-- update_holes: frames, holes equation, invariant preservation
-- ----------------------------

/-- The hole list produced by one `update_holes` pass: decrement every timer,
drop the expired ones. -/
def uhHoles : List Hole → List Hole
  | [] => []
  | h :: rest =>
    if h.timer - 1 ≤ 0 then uhHoles rest
    else ⟨h.x, h.y, h.timer - 1⟩ :: uhHoles rest

theorem uhGo_holes (pending done : List Hole) (g : Game) :
    (Game.uhGo pending done g).holes = done ++ uhHoles pending := by
  induction pending generalizing done g with
  | nil => simp [Game.uhGo, uhHoles]
  | cons h rest ih =>
    unfold Game.uhGo uhHoles
    split
    · rw [ih]
    · rw [ih]
      simp

theorem uhGo_frame (pending done : List Hole) (g : Game) :
    (Game.uhGo pending done g).player = g.player ∧
    (Game.uhGo pending done g).exit_pos = g.exit_pos ∧
    (Game.uhGo pending done g).won = g.won ∧
    (Game.uhGo pending done g).dead = g.dead ∧
    (Game.uhGo pending done g).countdown = g.countdown ∧
    (Game.uhGo pending done g).enemy_frame_counter = g.enemy_frame_counter := by
  induction pending generalizing done g with
  | nil => simp [Game.uhGo]
  | cons h rest ih =>
    unfold Game.uhGo
    split
    · exact ih ..
    · exact ih ..

theorem uhHoles_sub_coords (pending : List Hole) :
    ∀ p ∈ coordsOf (uhHoles pending), p ∈ coordsOf pending := by
  induction pending with
  | nil => simp [uhHoles]
  | cons h rest ih =>
    intro p hp
    unfold uhHoles at hp
    split at hp
    · exact List.mem_cons_of_mem _ (ih p hp)
    · rcases List.mem_cons.mp hp with h1 | h1
      · exact h1 ▸ List.mem_cons_self _ _
      · exact List.mem_cons_of_mem _ (ih p h1)

theorem crush_enemies_ok {es : List Enemy} (he : EnemiesOK es) (hx hy : Int) :
    EnemiesOK (crushAt es hx hy) := by
  intro e' hmem
  obtain ⟨e, hmem2, heq⟩ := List.mem_map.mp hmem
  obtain ⟨hr, hpos⟩ := he e hmem2
  rw [← heq]
  split
  · refine ⟨hr, Or.inl ?_⟩
    rw [hr]
    exact ⟨rfl, by norm_num, by norm_num⟩
  · exact ⟨hr, hpos⟩

theorem uhGo_inv (pending done : List Hole) (g : Game)
    (hd : Dims g.grid) (hc : Cells g.grid) (he : EnemiesOK g.enemies)
    (hh : ∀ h ∈ done ++ pending, inB h.x h.y = true →
      h.y = 16 ∧ 1 ≤ h.x ∧ h.x ≤ 18 ∧ tile_at g.grid h.x h.y = EMPTY)
    (hp : (coordsOf (done ++ pending)).Pairwise hRel) :
    Dims (Game.uhGo pending done g).grid ∧ Cells (Game.uhGo pending done g).grid ∧
    EnemiesOK (Game.uhGo pending done g).enemies ∧
    HolesOK (Game.uhGo pending done g).grid (Game.uhGo pending done g).holes := by
  induction pending generalizing done g with
  | nil =>
    simp only [Game.uhGo]
    refine ⟨hd, hc, he, ?_, ?_⟩
    · intro h hmem hin
      exact hh h (by simpa using hmem) hin
    · simpa using hp
  | cons h rest ih =>
    have hmemh : h ∈ done ++ h :: rest :=
      List.mem_append.mpr (Or.inr (List.mem_cons_self _ _))
    have hcoords_ne : ∀ h2 ∈ done ++ rest, inB h2.x h2.y = true → inB h.x h.y = true →
        ¬(h2.x = h.x ∧ h2.y = h.y) := by
      intro h2 hmem2 hin2 hinh heq
      have hmap : (coordsOf (done ++ h :: rest)) =
          coordsOf done ++ ((h.x, h.y) :: coordsOf rest) := by
        simp [coordsOf]
      rw [hmap] at hp
      obtain ⟨hp1, hp2, hp3⟩ := List.pairwise_append.mp hp
      rcases List.mem_append.mp hmem2 with hm | hm
      · have := hp3 (h2.x, h2.y) (List.mem_map.mpr ⟨h2, hm, rfl⟩)
          (h.x, h.y) (List.mem_cons_self _ _) hin2 hinh
        exact this (by rw [heq.1, heq.2])
      · have := (List.pairwise_cons.mp hp2).1 (h2.x, h2.y)
          (List.mem_map.mpr ⟨h2, hm, rfl⟩) hinh hin2
        exact this (by rw [heq.1, heq.2])
    unfold Game.uhGo
    split
    · -- the hole expires: crush, solidify, recurse
      rename_i ht
      by_cases hinH : inB h.x h.y = true
      · obtain ⟨hy16, hx1, hx18, htile⟩ := hh h hmemh hinH
        refine ih done _ (dims_set_tile hd _ _ _) ?_ (crush_enemies_ok he _ _) ?_ ?_
        · -- Cells after solidifying
          intro x y
          by_cases hxy : x = h.x ∧ y = h.y
          · rw [hxy.1, hxy.2]
            unfold CellOK
            rw [tile_at_set_brick]
            left
            obtain ⟨hx0, hx2, hy0, hy2⟩ := inB_bounds hinH
            rw [tile_at_level0_toN hx0 hx2 hy0 hy2]
            have h16 : h.y.toNat = 16 := by omega
            rw [h16]
            exact (lvl_row16 h.x.toNat (by omega)).symm
          · unfold CellOK
            rw [tile_at_set_tile_ne _ _ _ _ _ _ hxy]
            exact hc x y
        · intro h2 hmem2 hin2
          obtain ⟨p1, p2, p3, p4⟩ := hh h2 (by
            rcases List.mem_append.mp hmem2 with hm | hm
            · exact List.mem_append.mpr (Or.inl hm)
            · exact List.mem_append.mpr (Or.inr (List.mem_cons_of_mem _ hm))) hin2
          refine ⟨p1, p2, p3, ?_⟩
          rw [tile_at_set_tile_ne _ _ _ _ _ _ (hcoords_ne h2 hmem2 hin2 hinH)]
          exact p4
        · refine List.Pairwise.sublist ?_ hp
          unfold coordsOf
          exact List.Sublist.map _ (List.Sublist.append_left (List.sublist_cons_self _ _) _)
      · -- out-of-bounds hole: the solidify write is a no-op
        have hgr : set_tile g.grid h.x h.y BRICK = g.grid := by
          unfold set_tile
          rw [if_neg]
          rw [dims_in_bounds hd]
          simpa using hinH
        rw [hgr]
        refine ih done _ hd hc (crush_enemies_ok he _ _) ?_ ?_
        · intro h2 hmem2 hin2
          refine hh h2 ?_ hin2
          rcases List.mem_append.mp hmem2 with hm | hm
          · exact List.mem_append.mpr (Or.inl hm)
          · exact List.mem_append.mpr (Or.inr (List.mem_cons_of_mem _ hm))
        · refine List.Pairwise.sublist ?_ hp
          unfold coordsOf
          exact List.Sublist.map _ (List.Sublist.append_left (List.sublist_cons_self _ _) _)
    · -- the hole survives with a decremented timer
      rename_i ht
      refine ih (done ++ [⟨h.x, h.y, h.timer - 1⟩]) g hd hc he ?_ ?_
      · intro h2 hmem2 hin2
        have : h2 ∈ done ++ h :: rest ∨ h2 = (⟨h.x, h.y, h.timer - 1⟩ : Hole) := by
          rcases List.mem_append.mp hmem2 with hm | hm
          · rcases List.mem_append.mp hm with hm2 | hm2
            · exact Or.inl (List.mem_append.mpr (Or.inl hm2))
            · exact Or.inr (by simpa using hm2)
          · exact Or.inl (List.mem_append.mpr (Or.inr (List.mem_cons_of_mem _ hm)))
        rcases this with hm | hm
        · exact hh h2 hm hin2
        · rw [hm]
          rw [hm] at hin2
          exact hh h hmemh hin2
      · have : coordsOf ((done ++ [⟨h.x, h.y, h.timer - 1⟩]) ++ rest) =
            coordsOf (done ++ h :: rest) := by
          simp [coordsOf]
        rw [this]
        exact hp

theorem uhGo_enemies_pinned (pending done : List Hole) (g : Game)
    (hx : ∀ h ∈ pending, ¬(h.x = 17 ∧ h.y = 9)) (hpin : g.enemies = [⟨17, 9, (17, 9)⟩]) :
    (Game.uhGo pending done g).enemies = [⟨17, 9, (17, 9)⟩] := by
  induction pending generalizing done g with
  | nil => simpa [Game.uhGo] using hpin
  | cons h rest ih =>
    unfold Game.uhGo
    split
    · refine ih done _ (fun h2 hm => hx h2 (List.mem_cons_of_mem _ hm)) ?_
      show crushAt g.enemies h.x h.y = _
      rw [hpin]
      unfold crushAt
      simp only [List.map_cons, List.map_nil]
      rw [if_neg]
      intro hcon
      simp only [Bool.and_eq_true, beq_iff_eq] at hcon
      exact hx h (List.mem_cons_self _ _) ⟨hcon.1.symm, hcon.2.symm⟩
    · exact ih _ _ (fun h2 hm => hx h2 (List.mem_cons_of_mem _ hm)) hpin

theorem update_holes_frame (g : Game) :
    g.update_holes.player = g.player ∧ g.update_holes.exit_pos = g.exit_pos ∧
    g.update_holes.won = g.won ∧ g.update_holes.dead = g.dead ∧
    g.update_holes.countdown = g.countdown ∧
    g.update_holes.enemy_frame_counter = g.enemy_frame_counter :=
  uhGo_frame g.holes [] g

theorem update_holes_inv {g : Game} (hI : EngineInv g) : EngineInv g.update_holes := by
  have main := uhGo_inv g.holes [] g hI.dims hI.cells hI.enems
    (by simpa using hI.holes.1) (by simpa using hI.holes.2)
  have fr := update_holes_frame g
  refine ⟨main.1, main.2.1, main.2.2.2, main.2.2.1, ?_, ?_, ?_, ?_⟩
  · unfold PlayerOK
    rw [fr.1]
    exact hI.ppos
  · rw [fr.2.1]
    exact hI.epos
  · intro hcd
    rw [fr.2.2.2.2.1] at hcd
    obtain ⟨hw, hdd, hpx, hpy, hen⟩ := hI.start hcd
    refine ⟨by rw [fr.2.2.1]; exact hw, by rw [fr.2.2.2.1]; exact hdd,
      by rw [fr.1]; exact hpx, by rw [fr.1]; exact hpy, ?_⟩
    refine uhGo_enemies_pinned g.holes [] g ?_ hen
    intro h hm hcon
    have hib : inB h.x h.y = true := by
      rw [hcon.1, hcon.2]
      decide
    have := (hI.holes.1 h hm hib).1
    omega
  · intro hw
    rw [fr.2.2.2.1]
    rw [fr.2.2.1] at hw
    exact hI.flags hw

-- ----------------------------
-- Enemy movement: characterizations and invariant preservation
-- ----------------------------

theorem tme_cases (g : Game) (i : Nat) (dx dy : Int) :
    (g.try_move_enemy i dx dy).1 = g ∨
    ∃ e, g.enemies.get? i = some e ∧
      is_walkable (tile_at g.grid (e.x + dx) (e.y + dy)) = true ∧
      (g.try_move_enemy i dx dy).1 =
        { g with enemies := g.enemies.set i { e with x := e.x + dx, y := e.y + dy } } := by
  unfold Game.try_move_enemy
  cases hget : g.enemies.get? i with
  | none => exact Or.inl rfl
  | some e =>
    simp only []
    cases hw : is_walkable (g.tile (e.x + dx) (e.y + dy))
    · rw [if_pos (by rfl)]
      exact Or.inl rfl
    · rw [if_neg (by simp)]
      split
      · exact Or.inl rfl
      · exact Or.inr ⟨e, rfl, hw, rfl⟩

theorem tme_frame (g : Game) (i : Nat) (dx dy : Int) :
    (g.try_move_enemy i dx dy).1.grid = g.grid ∧
    (g.try_move_enemy i dx dy).1.player = g.player ∧
    (g.try_move_enemy i dx dy).1.holes = g.holes ∧
    (g.try_move_enemy i dx dy).1.exit_pos = g.exit_pos ∧
    (g.try_move_enemy i dx dy).1.won = g.won ∧
    (g.try_move_enemy i dx dy).1.dead = g.dead ∧
    (g.try_move_enemy i dx dy).1.countdown = g.countdown ∧
    (g.try_move_enemy i dx dy).1.enemy_frame_counter = g.enemy_frame_counter := by
  rcases tme_cases g i dx dy with h | ⟨e, _, _, h⟩ <;> rw [h] <;> exact ⟨rfl, rfl, rfl, rfl, rfl, rfl, rfl, rfl⟩

theorem enemies_ok_set {es : List Enemy} (he : EnemiesOK es) {e' : Enemy}
    (h : EnemyOK e') (i : Nat) : EnemiesOK (es.set i e') := by
  intro x hx
  rcases mem_of_mem_set hx with h1 | h1
  · rw [h1]
    exact h
  · exact he x h1

theorem ai_horiz_cases (g : Game) (i : Nat) (px py ex ey : Int) :
    Game.ai_horiz g i px py ex ey = g ∨
    Game.ai_horiz g i px py ex ey = (g.try_move_enemy i (-1) 0).1 ∨
    Game.ai_horiz g i px py ex ey = (g.try_move_enemy i 1 0).1 := by
  unfold Game.ai_horiz
  split
  · split
    · exact Or.inr (Or.inl rfl)
    · split
      · exact Or.inr (Or.inr rfl)
      · exact Or.inl rfl
  · split
    · exact Or.inr (Or.inl rfl)
    · split
      · exact Or.inr (Or.inr rfl)
      · exact Or.inl rfl

theorem tme_horiz_ok {g : Game} (hd : Dims g.grid) (hc : Cells g.grid)
    (he : EnemiesOK g.enemies) (i : Nat) (dx : Int)
    (hcase : ∀ e, g.enemies.get? i = some e → 15 ≤ e.y) :
    EnemiesOK ((g.try_move_enemy i dx 0).1).enemies := by
  rcases tme_cases g i dx 0 with hres | ⟨e, hget, hw, hres⟩
  · rw [hres]
    exact he
  · rw [hres]
    have heOK := he e (List.get?_mem hget)
    apply enemies_ok_set he
    have hb := walkable_bounds hd hc hw
    have hy := hcase e hget
    refine ⟨heOK.1, Or.inr ⟨?_, ?_, ?_, ?_⟩⟩ <;> simp <;> omega

theorem ai_enemies_ok {g : Game} (hd : Dims g.grid) (hc : Cells g.grid)
    (he : EnemiesOK g.enemies) (i : Nat)
    (hcase : ∀ e, g.enemies.get? i = some e → 15 ≤ e.y) :
    EnemiesOK ((g.enemy_ai_step i)).enemies := by
  unfold Game.enemy_ai_step
  cases hget : g.enemies.get? i with
  | none => exact he
  | some e =>
    simp only [Game.tile]
    have heOK := he e (List.get?_mem hget)
    have hy15 := hcase e hget
    have hy16 : e.y ≤ 16 := by
      rcases heOK.2 with h | h
      · omega
      · omega
    have hx118 : 1 ≤ e.x ∧ e.x ≤ 18 := by
      rcases heOK.2 with h | h
      · omega
      · omega
    have hclimb : is_climbable (tile_at g.grid e.x e.y) = false ∧
        is_climbable (tile_at g.grid e.x (e.y - 1)) = false ∧
        is_climbable (tile_at g.grid e.x (e.y + 1)) = false := by
      by_cases h15 : e.y = 15
      · rw [h15]
        refine ⟨?_, ?_, ?_⟩
        · rw [tile_row15 hd hc hx118.1 hx118.2]
          decide
        · have h14 : (15 : Int) - 1 = 14 := by norm_num
          rw [h14]
          exact tile_row14_noclimb hd hc hx118.1 hx118.2
        · have h16 : (15 : Int) + 1 = 16 := by norm_num
          rw [h16]
          rcases tile_row16 hd hc e.x with h | h <;> rw [h] <;> decide
      · have h16 : e.y = 16 := by omega
        rw [h16]
        refine ⟨?_, ?_, ?_⟩
        · rcases tile_row16 hd hc e.x with h | h <;> rw [h] <;> decide
        · have h15' : (16 : Int) - 1 = 15 := by norm_num
          rw [h15']
          rw [tile_row15 hd hc hx118.1 hx118.2]
          decide
        · have h17 : (16 : Int) + 1 = 17 := by norm_num
          rw [h17, tile_y17 hd]
          decide
    rw [if_neg (by rw [hclimb.1, hclimb.2.1, hclimb.2.2]; simp)]
    rcases ai_horiz_cases g i g.player.x g.player.y e.x e.y with h | h | h <;> rw [h]
    · exact he
    · exact tme_horiz_ok hd hc he i (-1) hcase
    · exact tme_horiz_ok hd hc he i 1 hcase

theorem enemyTick_ok {g : Game} (hd : Dims g.grid) (hc : Cells g.grid)
    (he : EnemiesOK g.enemies) (i : Nat) :
    EnemiesOK (g.enemyTick i).enemies := by
  unfold Game.enemyTick
  cases hget : g.enemies.get? i with
  | none => exact he
  | some e =>
    simp only []
    have heOK := he e (List.get?_mem hget)
    split
    · -- gravity branch
      rcases tme_cases g i 0 1 with hres | ⟨e2, hget2, hw, hres⟩
      · rw [hres]
        exact he
      · rw [hget] at hget2
        injection hget2 with h2
        subst h2
        rw [hres]
        apply enemies_ok_set he
        have hb := walkable_bounds hd hc hw
        refine ⟨heOK.1, ?_⟩
        rcases heOK.2 with hcs | hcs
        · by_cases h14 : e.y + 1 ≤ 14
          · refine Or.inl ⟨?_, ?_, ?_⟩ <;> simp <;> omega
          · refine Or.inr ⟨?_, ?_, ?_, ?_⟩ <;> simp <;> omega
        · refine Or.inr ⟨?_, ?_, ?_, ?_⟩ <;> simp <;> omega
    · -- AI branch: gravity is off, so the enemy is in the floor region
      rename_i hgrav
      have hy15 : 15 ≤ e.y := by
        by_contra hlt
        rcases heOK.2 with hcs | hcs
        · have hhere : tile_at g.grid e.x e.y = EMPTY := by
            rw [hcs.1]
            exact tile_col17 hd hc (by omega) (by omega)
          have hund : tile_at g.grid e.x (e.y + 1) = EMPTY := by
            rw [hcs.1]
            exact tile_col17 hd hc (by omega) (by omega)
          simp [Game.gravity_applies, Game.tile, hhere, hund, is_rope, is_climbable,
            is_solid, EMPTY, BRICK, LADDER, ROPE] at hgrav
        · omega
      apply ai_enemies_ok hd hc he i
      intro e' hget'
      rw [hget] at hget'
      injection hget' with h2
      rw [← h2]
      exact hy15

theorem ai_step_cases (g : Game) (i : Nat) :
    g.enemy_ai_step i = g ∨ ∃ dx dy, g.enemy_ai_step i = (g.try_move_enemy i dx dy).1 := by
  unfold Game.enemy_ai_step
  cases hget : g.enemies.get? i with
  | none => exact Or.inl rfl
  | some e =>
    simp only []
    split
    · split
      · exact Or.inr ⟨0, -1, rfl⟩
      · split
        · exact Or.inr ⟨0, 1, rfl⟩
        · rcases ai_horiz_cases g i g.player.x g.player.y e.x e.y with h | h | h
          · exact Or.inl h
          · exact Or.inr ⟨-1, 0, h⟩
          · exact Or.inr ⟨1, 0, h⟩
    · rcases ai_horiz_cases g i g.player.x g.player.y e.x e.y with h | h | h
      · exact Or.inl h
      · exact Or.inr ⟨-1, 0, h⟩
      · exact Or.inr ⟨1, 0, h⟩

theorem enemyTick_cases (g : Game) (i : Nat) :
    g.enemyTick i = g ∨ ∃ dx dy, g.enemyTick i = (g.try_move_enemy i dx dy).1 := by
  unfold Game.enemyTick
  cases hget : g.enemies.get? i with
  | none => exact Or.inl rfl
  | some e =>
    simp only []
    split
    · exact Or.inr ⟨0, 1, rfl⟩
    · exact ai_step_cases g i

theorem enemyTick_frame (g : Game) (i : Nat) :
    (g.enemyTick i).grid = g.grid ∧ (g.enemyTick i).player = g.player ∧
    (g.enemyTick i).holes = g.holes ∧ (g.enemyTick i).exit_pos = g.exit_pos ∧
    (g.enemyTick i).won = g.won ∧ (g.enemyTick i).dead = g.dead ∧
    (g.enemyTick i).countdown = g.countdown ∧
    (g.enemyTick i).enemy_frame_counter = g.enemy_frame_counter := by
  rcases enemyTick_cases g i with h | ⟨dx, dy, h⟩
  · rw [h]
    exact ⟨rfl, rfl, rfl, rfl, rfl, rfl, rfl, rfl⟩
  · rw [h]
    exact tme_frame g i dx dy

theorem fold_enemyTick_ok (l : List Nat) (g : Game)
    (hd : Dims g.grid) (hc : Cells g.grid) (he : EnemiesOK g.enemies) :
    EnemiesOK (l.foldl Game.enemyTick g).enemies ∧
    (l.foldl Game.enemyTick g).grid = g.grid ∧
    (l.foldl Game.enemyTick g).player = g.player ∧
    (l.foldl Game.enemyTick g).holes = g.holes ∧
    (l.foldl Game.enemyTick g).exit_pos = g.exit_pos ∧
    (l.foldl Game.enemyTick g).won = g.won ∧
    (l.foldl Game.enemyTick g).dead = g.dead ∧
    (l.foldl Game.enemyTick g).countdown = g.countdown := by
  induction l generalizing g with
  | nil => exact ⟨he, rfl, rfl, rfl, rfl, rfl, rfl, rfl⟩
  | cons i rest ih =>
    simp only [List.foldl_cons]
    have fr := enemyTick_frame g i
    have step := ih (g.enemyTick i) (by rw [fr.1]; exact hd) (by rw [fr.1]; exact hc)
      (enemyTick_ok hd hc he i)
    refine ⟨step.1, ?_, ?_, ?_, ?_, ?_, ?_, ?_⟩
    · rw [step.2.1, fr.1]
    · rw [step.2.2.1, fr.2.1]
    · rw [step.2.2.2.1, fr.2.2.1]
    · rw [step.2.2.2.2.1, fr.2.2.2.1]
    · rw [step.2.2.2.2.2.1, fr.2.2.2.2.1]
    · rw [step.2.2.2.2.2.2.1, fr.2.2.2.2.2.1]
    · rw [step.2.2.2.2.2.2.2, fr.2.2.2.2.2.2.1]

theorem moveEnemies_ok {g : Game} (hd : Dims g.grid) (hc : Cells g.grid)
    (he : EnemiesOK g.enemies) :
    EnemiesOK g.moveEnemies.enemies ∧
    g.moveEnemies.grid = g.grid ∧ g.moveEnemies.player = g.player ∧
    g.moveEnemies.holes = g.holes ∧ g.moveEnemies.exit_pos = g.exit_pos ∧
    g.moveEnemies.won = g.won ∧ g.moveEnemies.dead = g.dead ∧
    g.moveEnemies.countdown = g.countdown := by
  unfold Game.moveEnemies
  split
  · exact fold_enemyTick_ok _ _ hd hc he
  · exact ⟨he, rfl, rfl, rfl, rfl, rfl, rfl, rfl⟩

-- ----------------------------
-- update_entities: invariant preservation
-- ----------------------------

theorem pgrav_inv {g : Game} (hI : EngineInv g) (hcd : ¬0 < g.countdown) :
    EngineInv g.applyPlayerGravity ∧
    g.applyPlayerGravity.grid = g.grid ∧ g.applyPlayerGravity.holes = g.holes ∧
    g.applyPlayerGravity.enemies = g.enemies ∧ g.applyPlayerGravity.exit_pos = g.exit_pos ∧
    g.applyPlayerGravity.won = g.won ∧ g.applyPlayerGravity.dead = g.dead ∧
    g.applyPlayerGravity.countdown = g.countdown := by
  unfold Game.applyPlayerGravity
  split
  · cases h2 : (g.try_move 0 1).2
    · rw [try_move_snd_false h2]
      exact ⟨hI, rfl, rfl, rfl, rfl, rfl, rfl, rfl⟩
    · obtain ⟨hw, heq⟩ := try_move_snd_true h2
      have hbd := walkable_bounds hI.dims hI.cells hw
      rw [heq]
      refine ⟨⟨hI.dims, hI.cells, hI.holes, hI.enems, ?_, hI.epos, ?_, hI.flags⟩,
        rfl, rfl, rfl, rfl, rfl, rfl, rfl⟩
      · exact ⟨hbd.1, hbd.2.1, hbd.2.2.1, hbd.2.2.2⟩
      · intro hcon
        exact absurd hcon hcd
  · exact ⟨hI, rfl, rfl, rfl, rfl, rfl, rfl, rfl⟩

theorem checkWin_props {g : Game} (hI : EngineInv g) (hdead : g.dead = false)
    (hcd : ¬0 < g.countdown) :
    EngineInv g.checkWin ∧ g.checkWin.dead = false ∧ g.checkWin.player = g.player ∧
    g.checkWin.enemies = g.enemies ∧ g.checkWin.grid = g.grid ∧
    g.checkWin.holes = g.holes ∧ g.checkWin.exit_pos = g.exit_pos ∧
    g.checkWin.countdown = g.countdown ∧
    (g.checkWin.won = true → g.won = true ∨ (g.player.x, g.player.y) = (13, 11)) := by
  unfold Game.checkWin
  split
  · rename_i hcond
    simp only [Bool.and_eq_true, beq_iff_eq] at hcond
    refine ⟨⟨hI.dims, hI.cells, hI.holes, hI.enems, hI.ppos, hI.epos, ?_, ?_⟩,
      hdead, rfl, rfl, rfl, rfl, rfl, rfl, ?_⟩
    · intro hcon
      exact absurd hcon hcd
    · intro _
      exact hdead
    · intro _
      right
      rw [hcond.2, hI.epos]
  · exact ⟨hI, hdead, rfl, rfl, rfl, rfl, rfl, rfl, fun h => Or.inl h⟩

theorem no_overlap_at_exit {es : List Enemy} (he : EnemiesOK es) :
    ∀ e ∈ es, ¬(e.x = 13 ∧ e.y = 11) := by
  intro e hmem hcon
  rcases (he e hmem).2 with h | h
  · omega
  · omega

theorem update_entities_inv {g : Game} (hI : EngineInv g) : EngineInv g.update_entities := by
  unfold Game.update_entities
  split
  · exact hI
  · split
    · exact hI
    · rename_i hwd hcd0
      have hw : g.won = false := by
        by_contra h
        simp only [Bool.not_eq_false] at h
        simp [h] at hwd
      have hdd : g.dead = false := by
        by_contra h
        simp only [Bool.not_eq_false] at h
        simp [h] at hwd
      have hcd : ¬0 < g.countdown := by simpa using hcd0
      -- phase 1: gravity
      obtain ⟨hI1, fr1⟩ := pgrav_inv hI hcd
      have hcd1 : ¬0 < g.applyPlayerGravity.countdown := by
        rw [fr1.2.2.2.2.2.2]
        exact hcd
      have hw1 : g.applyPlayerGravity.won = false := by rw [fr1.2.2.2.2.1]; exact hw
      have hdd1 : g.applyPlayerGravity.dead = false := by rw [fr1.2.2.2.2.2.1]; exact hdd
      -- phase 2: gold pickup
      have hI2 : EngineInv g.applyPlayerGravity.collect_gold := collect_inv_full hI1 hcd1
      have fr2 := collect_frame g.applyPlayerGravity
      have hcd2 : ¬0 < g.applyPlayerGravity.collect_gold.countdown := by
        rw [fr2.2.2.2.2.2.2.2.1]
        exact hcd1
      have hdd2 : g.applyPlayerGravity.collect_gold.dead = false := by
        rw [fr2.2.2.2.2.2.2.1]
        exact hdd1
      -- phase 3: win check
      obtain ⟨hI3, hdd3, hpl3, hen3, hgr3, hho3, hex3, hcn3, hwin3⟩ :=
        checkWin_props hI2 hdd2 hcd2
      set g3 := g.applyPlayerGravity.collect_gold.checkWin with hg3
      -- phase 4: enemy movement
      obtain ⟨he4, hgr4, hpl4, hho4, hex4, hw4, hdd4, hcn4⟩ :=
        moveEnemies_ok hI3.dims hI3.cells hI3.enems
      set g4 := g3.moveEnemies with hg4
      have hI4 : EngineInv g4 := by
        refine ⟨by rw [hgr4]; exact hI3.dims, by rw [hgr4]; exact hI3.cells, ?_, he4, ?_, ?_, ?_, ?_⟩
        · rw [hgr4, hho4]
          exact hI3.holes
        · unfold PlayerOK
          rw [hpl4]
          exact hI3.ppos
        · rw [hex4]
          exact hI3.epos
        · intro hcon
          rw [hcn4, hcn3] at hcon
          exact absurd hcon hcd2
        · intro hcon
          rw [hdd4]
          rw [hw4] at hcon
          exact hI3.flags hcon
      -- phase 5: collision check
      unfold Game.checkCollision
      split
      · rename_i hcol
        refine ⟨hI4.dims, hI4.cells, hI4.holes, hI4.enems, hI4.ppos, hI4.epos, ?_, ?_⟩
        · intro hcon
          exact absurd (by rw [hcn4, hcn3] at hcon; exact hcon) hcd2
        · -- if the win was set this tick, no enemy can be at the exit cell
          intro hwon
          exfalso
          rw [hw4] at hwon
          rcases hwin3 hwon with hprev | hpos
          · rw [fr2.2.2.2.2.2.1, fr1.2.2.2.2.1] at hprev
            rw [hprev] at hw
            exact absurd hw (by decide)
          · simp only [anyEnemyAtPlayer, List.any_eq_true] at hcol
            obtain ⟨e, hmem, hcpos⟩ := hcol
            simp only [Bool.and_eq_true, beq_iff_eq] at hcpos
            have hat : e.x = 13 ∧ e.y = 11 := by
              have p1 : g4.player.x = 13 := by
                rw [hpl4, hpl3]
                exact congrArg Prod.fst hpos
              have p2 : g4.player.y = 11 := by
                rw [hpl4, hpl3]
                exact congrArg Prod.snd hpos
              exact ⟨by rw [hcpos.1, p1], by rw [hcpos.2, p2]⟩
            exact no_overlap_at_exit he4 e hmem hat
      · exact hI4

-- ----------------------------
-- The invariant holds in every reachable state
-- ----------------------------

theorem inv_reset : EngineInv Game.reset := by
  refine ⟨?_, ?_, ⟨?_, ?_⟩, ?_, ?_, reset_exit, ?_, ?_⟩
  · rw [reset_grid]
    exact lvl_dims
  · intro x y
    exact Or.inl rfl
  · intro h hmem
    rw [reset_holes] at hmem
    exact absurd hmem (List.not_mem_nil h)
  · rw [reset_holes]
    simp [coordsOf]
  · intro e hmem
    rw [reset_enemies] at hmem
    simp only [List.mem_singleton] at hmem
    rw [hmem]
    exact ⟨rfl, Or.inl ⟨rfl, by norm_num, by norm_num⟩⟩
  · unfold PlayerOK
    rw [reset_player]
    refine ⟨by norm_num, by norm_num, by norm_num, by norm_num⟩
  · intro _
    refine ⟨rfl, rfl, ?_, ?_, reset_enemies⟩
    · rw [reset_player]
    · rw [reset_player]
  · intro h
    exact rfl

theorem dec_inv {g : Game} (hI : EngineInv g) : EngineInv g.decCountdown := by
  unfold Game.decCountdown
  split
  · refine ⟨hI.dims, hI.cells, hI.holes, hI.enems, hI.ppos, hI.epos, ?_, hI.flags⟩
    intro hcon
    exact hI.start (by omega)
  · exact hI

theorem step_inv {g : Game} (hI : EngineInv g) : EngineInv g.step :=
  update_entities_inv (update_holes_inv (dec_inv hI))

theorem applyAct_inv {g : Game} (hI : EngineInv g) (a : Act) : EngineInv (applyAct g a) := by
  cases a with
  | left => exact hpm_inv hI (-1) 0
  | right => exact hpm_inv hI 1 0
  | up => exact hpm_inv hI 0 (-1)
  | down => exact hpm_inv hI 0 1
  | digL => exact dig_inv hI (-1)
  | digR => exact dig_inv hI 1
  | reset => exact inv_reset
  | tick => exact step_inv hI

theorem inv_foldl (acts : List Act) (g : Game) (hI : EngineInv g) :
    EngineInv (acts.foldl applyAct g) := by
  induction acts generalizing g with
  | nil => exact hI
  | cons a rest ih => exact ih _ (applyAct_inv hI a)

theorem inv_run (acts : List Act) : EngineInv (run acts) :=
  inv_foldl acts Game.reset inv_reset

-- ----------------------------
-- Additional frame lemmas for the step phases
-- ----------------------------

theorem pgrav_frame (g : Game) :
    g.applyPlayerGravity.grid = g.grid ∧ g.applyPlayerGravity.holes = g.holes ∧
    g.applyPlayerGravity.enemies = g.enemies ∧ g.applyPlayerGravity.exit_pos = g.exit_pos ∧
    g.applyPlayerGravity.won = g.won ∧ g.applyPlayerGravity.dead = g.dead ∧
    g.applyPlayerGravity.countdown = g.countdown ∧
    g.applyPlayerGravity.enemy_frame_counter = g.enemy_frame_counter := by
  unfold Game.applyPlayerGravity
  split
  · have fr := try_move_frame g 0 1
    exact ⟨fr.1, fr.2.1, fr.2.2.1, fr.2.2.2.1, fr.2.2.2.2.1, fr.2.2.2.2.2.1,
      fr.2.2.2.2.2.2.1, fr.2.2.2.2.2.2.2.1⟩
  · exact ⟨rfl, rfl, rfl, rfl, rfl, rfl, rfl, rfl⟩

theorem checkWin_frame (g : Game) :
    g.checkWin.grid = g.grid ∧ g.checkWin.player = g.player ∧
    g.checkWin.enemies = g.enemies ∧ g.checkWin.holes = g.holes ∧
    g.checkWin.exit_pos = g.exit_pos ∧ g.checkWin.dead = g.dead ∧
    g.checkWin.countdown = g.countdown ∧
    g.checkWin.enemy_frame_counter = g.enemy_frame_counter := by
  unfold Game.checkWin
  split <;> exact ⟨rfl, rfl, rfl, rfl, rfl, rfl, rfl, rfl⟩

theorem checkCollision_frame (g : Game) :
    g.checkCollision.grid = g.grid ∧ g.checkCollision.player = g.player ∧
    g.checkCollision.enemies = g.enemies ∧ g.checkCollision.holes = g.holes ∧
    g.checkCollision.exit_pos = g.exit_pos ∧ g.checkCollision.won = g.won ∧
    g.checkCollision.countdown = g.countdown ∧
    g.checkCollision.enemy_frame_counter = g.enemy_frame_counter := by
  unfold Game.checkCollision
  split <;> exact ⟨rfl, rfl, rfl, rfl, rfl, rfl, rfl, rfl⟩

theorem fold_enemyTick_frame (l : List Nat) (g : Game) :
    (l.foldl Game.enemyTick g).grid = g.grid ∧
    (l.foldl Game.enemyTick g).player = g.player ∧
    (l.foldl Game.enemyTick g).holes = g.holes ∧
    (l.foldl Game.enemyTick g).exit_pos = g.exit_pos ∧
    (l.foldl Game.enemyTick g).won = g.won ∧
    (l.foldl Game.enemyTick g).dead = g.dead ∧
    (l.foldl Game.enemyTick g).countdown = g.countdown := by
  induction l generalizing g with
  | nil => exact ⟨rfl, rfl, rfl, rfl, rfl, rfl, rfl⟩
  | cons i rest ih =>
    simp only [List.foldl_cons]
    have fr := enemyTick_frame g i
    have step := ih (g.enemyTick i)
    refine ⟨?_, ?_, ?_, ?_, ?_, ?_, ?_⟩
    · rw [step.1, fr.1]
    · rw [step.2.1, fr.2.1]
    · rw [step.2.2.1, fr.2.2.1]
    · rw [step.2.2.2.1, fr.2.2.2.1]
    · rw [step.2.2.2.2.1, fr.2.2.2.2.1]
    · rw [step.2.2.2.2.2.1, fr.2.2.2.2.2.1]
    · rw [step.2.2.2.2.2.2, fr.2.2.2.2.2.2.1]

theorem moveEnemies_frame (g : Game) :
    g.moveEnemies.grid = g.grid ∧ g.moveEnemies.player = g.player ∧
    g.moveEnemies.holes = g.holes ∧ g.moveEnemies.exit_pos = g.exit_pos ∧
    g.moveEnemies.won = g.won ∧ g.moveEnemies.dead = g.dead ∧
    g.moveEnemies.countdown = g.countdown := by
  unfold Game.moveEnemies
  split
  · exact fold_enemyTick_frame ..
  · exact ⟨rfl, rfl, rfl, rfl, rfl, rfl, rfl⟩

theorem update_entities_frame (g : Game) :
    g.update_entities.holes = g.holes ∧ g.update_entities.countdown = g.countdown ∧
    g.update_entities.exit_pos = g.exit_pos := by
  unfold Game.update_entities
  split
  · exact ⟨rfl, rfl, rfl⟩
  · split
    · exact ⟨rfl, rfl, rfl⟩
    · set g1 := g.applyPlayerGravity
      refine ⟨?_, ?_, ?_⟩
      · rw [(checkCollision_frame _).2.2.2.1, (moveEnemies_frame _).2.2.1,
          (checkWin_frame _).2.2.2.1, (collect_frame _).2.2.1, (pgrav_frame g).2.1]
      · rw [(checkCollision_frame _).2.2.2.2.2.2.1, (moveEnemies_frame _).2.2.2.2.2.2,
          (checkWin_frame _).2.2.2.2.2.2.1, (collect_frame _).2.2.2.2.2.2.2.1,
          (pgrav_frame g).2.2.2.2.2.2.1]
      · rw [(checkCollision_frame _).2.2.2.2.1, (moveEnemies_frame _).2.2.2.1,
          (checkWin_frame _).2.2.2.2.1, (collect_frame _).2.2.2.2.1, (pgrav_frame g).2.2.2.1]

theorem decCountdown_frame (g : Game) :
    g.decCountdown.grid = g.grid ∧ g.decCountdown.player = g.player ∧
    g.decCountdown.enemies = g.enemies ∧ g.decCountdown.holes = g.holes ∧
    g.decCountdown.exit_pos = g.exit_pos ∧ g.decCountdown.won = g.won ∧
    g.decCountdown.dead = g.dead ∧
    g.decCountdown.enemy_frame_counter = g.enemy_frame_counter := by
  unfold Game.decCountdown
  split <;> exact ⟨rfl, rfl, rfl, rfl, rfl, rfl, rfl, rfl⟩

-- ----------------------------
-- C1: the four session statuses are mutually exclusive
-- ----------------------------

/-- The spec's session status is derived from the three flags: `Starting` iff
`countdown > 0`, `Won` iff `won`, `Lost` iff `dead`, and `Running` otherwise.
This Boolean predicate states their mutual exclusivity: `won` and `dead` never
hold together, and neither holds while the countdown is positive. -/
def statusExclusive (s : Game) : Bool :=
  !(s.won && s.dead) && (if 0 < s.countdown then !s.won && !s.dead else true)

/-- C1: The four session status values — Starting(countdown), Running, Won,
Lost — are mutually exclusive in every engine state reachable by intents and
`step()` calls; in particular the engine is never simultaneously Won and
Lost. -/
theorem spec_c1_status_exclusive : ∀ acts : List Act, statusExclusive (run acts) = true := by
  intro acts
  have hI := inv_run acts
  unfold statusExclusive
  by_cases hcd : 0 < (run acts).countdown
  · obtain ⟨hw, hd, _⟩ := hI.start hcd
    rw [if_pos hcd, hw, hd]
    rfl
  · rw [if_neg hcd]
    cases hw : (run acts).won
    · simp
    · have hd := hI.flags hw
      rw [hd]
      rfl

-- ----------------------------
-- C2: the hole invariant (corrected: out-of-bounds holes break it)
-- ----------------------------

/-- 300 ticks: the full starting countdown elapses. -/
def trace300 : List Act := List.replicate 300 Act.tick

/-- After the countdown: dig right (hole at (12,16)), walk right onto (12,15),
dig right (hole at (13,16)), then one tick so the player falls into the hole
at (12,16). -/
def traceOobDig : List Act := trace300 ++ [Act.digR, Act.right, Act.digR, Act.tick]

/-- From inside the hole at (12,16), dig right twice: the target (13,17) is
out of bounds, reads as `Brick`, and the side cell (13,16) is an empty hole,
so two `Hole` records are appended at the out-of-bounds cell (13,17) while the
grid write is a silent no-op. -/
def traceOobHoles : List Act := traceOobDig ++ [Act.digR, Act.digR]

/-- No two holes in the list share coordinates (the claim's duplicate-freedom,
over all holes). -/
def noDupAll : List Hole → Bool
  | [] => true
  | h :: t => (t.all fun h2 => !(h.x == h2.x && h.y == h2.y)) && noDupAll t

/-- No two in-bounds holes share coordinates. -/
def noDupInB : List Hole → Bool
  | [] => true
  | h :: t =>
    (t.all fun h2 => !(inB h.x h.y && inB h2.x h2.y && h.x == h2.x && h.y == h2.y)) &&
    noDupInB t

/-- The hole invariant exactly as claimed: every recorded hole is an in-grid
cell that currently reads `Empty` and was `Brick` in the parsed level, and no
two holes share coordinates. -/
def holesClaimCheck (s : Game) : Bool :=
  (s.holes.all fun h => in_bounds s.grid h.x h.y && tile_at s.grid h.x h.y == EMPTY &&
    tile_at level0 h.x h.y == BRICK) &&
  noDupAll s.holes

set_option maxRecDepth 4000

theorem stepN_add (a b : Nat) (g : Game) :
    Game.stepN (a + b) g = Game.stepN b (Game.stepN a g) := by
  induction a generalizing g with
  | zero => rw [Nat.zero_add]; rfl
  | succ n ih =>
    have : n + 1 + b = (n + b) + 1 := by omega
    rw [this]
    show Game.stepN (n + b) g.step = _
    rw [ih]
    rfl

theorem foldl_replicate_tick (n : Nat) (g : Game) :
    (List.replicate n Act.tick).foldl applyAct g = Game.stepN n g := by
  induction n generalizing g with
  | zero => rfl
  | succ m ih =>
    rw [List.replicate_succ, List.foldl_cons]
    exact ih g.step

theorem run_append (l1 l2 : List Act) : run (l1 ++ l2) = l2.foldl applyAct (run l1) := by
  unfold run
  rw [List.foldl_append]

/-- The engine state when the starting countdown has just elapsed. -/
def preState : Game :=
  ⟨level0, ⟨11, 15, 0⟩, [⟨17, 9, (17, 9)⟩], [], (13, 11), false, false, 0, 1⟩

/-- Intermediate countdown state after `n` ticks (`n < 300`). -/
def cdState (n : Int) : Game :=
  ⟨level0, ⟨11, 15, 0⟩, [⟨17, 9, (17, 9)⟩], [], (13, 11), false, false, 300 - n, 0⟩

theorem stepN60_a : Game.stepN 60 Game.reset = cdState 60 := by decide

theorem stepN60_b : Game.stepN 60 (cdState 60) = cdState 120 := by decide

theorem stepN60_c : Game.stepN 60 (cdState 120) = cdState 180 := by decide

theorem stepN60_d : Game.stepN 60 (cdState 180) = cdState 240 := by decide

theorem stepN60_e : Game.stepN 60 (cdState 240) = preState := by decide

theorem run_trace300 : run trace300 = preState := by
  show (List.replicate 300 Act.tick).foldl applyAct Game.reset = preState
  rw [foldl_replicate_tick]
  have h300 : (300 : Nat) = 60 + (60 + (60 + (60 + 60))) := rfl
  rw [h300, stepN_add, stepN60_a, stepN_add, stepN60_b, stepN_add, stepN60_c,
    stepN_add, stepN60_d, stepN60_e]

/-- The engine state after the two bottom-row digs and the tick that drops the
player into the hole at (12,16). -/
def digState : Game :=
  ⟨set_tile (set_tile level0 12 16 EMPTY) 13 16 EMPTY, ⟨12, 16, 0⟩, [⟨17, 9, (17, 9)⟩],
    [⟨12, 16, 239⟩, ⟨13, 16, 239⟩], (13, 11), false, false, 0, 2⟩

theorem run_traceOobDig : run traceOobDig = digState := by
  unfold traceOobDig
  rw [run_append, run_trace300]
  decide

/-- The engine state after two further digs whose target (13,17) is out of
bounds. -/
def oobState : Game :=
  ⟨set_tile (set_tile level0 12 16 EMPTY) 13 16 EMPTY, ⟨12, 16, 0⟩, [⟨17, 9, (17, 9)⟩],
    [⟨12, 16, 239⟩, ⟨13, 16, 239⟩, ⟨13, 17, 240⟩, ⟨13, 17, 240⟩], (13, 11), false, false, 0, 2⟩

theorem run_traceOobHoles : run traceOobHoles = oobState := by
  unfold traceOobHoles
  rw [run_append, run_traceOobDig]
  decide

/-- C2, counterexample: after a reachable trace (player digs two holes in the
bottom row, falls into one, then digs twice toward the out-of-bounds row 17)
the hole set contains two holes at the out-of-bounds cell (13,17) whose tile
reads `Brick`, refuting both conjuncts of the claim. -/
theorem spec_c2_holes_cex : holesClaimCheck (run traceOobHoles) = false := by
  rw [run_traceOobHoles]
  decide

/-- The amended per-hole property: only holes lying within the grid bounds
are required to sit on a currently-`Empty`, originally-`Brick` cell; only
in-bounds holes are required to be pairwise distinct. -/
def holesAmendedCheck (s : Game) : Bool :=
  (s.holes.all fun h => !in_bounds s.grid h.x h.y ||
    (tile_at s.grid h.x h.y == EMPTY && tile_at level0 h.x h.y == BRICK)) &&
  noDupInB s.holes

theorem noDupInB_of_pairwise {hs : List Hole} (h : (coordsOf hs).Pairwise hRel) :
    noDupInB hs = true := by
  induction hs with
  | nil => rfl
  | cons h0 t ih =>
    have hmap : coordsOf (h0 :: t) = (h0.x, h0.y) :: coordsOf t := rfl
    rw [hmap] at h
    obtain ⟨hhead, htail⟩ := List.pairwise_cons.mp h
    unfold noDupInB
    rw [Bool.and_eq_true]
    refine ⟨List.all_eq_true.mpr ?_, ih htail⟩
    intro h2 hmem
    by_cases hc : (inB h0.x h0.y && inB h2.x h2.y && (h0.x == h2.x) && (h0.y == h2.y)) = true
    · exfalso
      simp only [Bool.and_eq_true, beq_iff_eq] at hc
      have := hhead (h2.x, h2.y) (List.mem_map.mpr ⟨h2, hmem, rfl⟩) hc.1.1.1 hc.1.1.2
      exact this (by rw [hc.1.2, hc.2])
    · simp only [Bool.not_eq_true] at hc
      rw [hc]
      rfl

/-- C2, amended: in every reachable engine state, each recorded Hole whose
(x,y) lies within the grid bounds is at a cell whose current tile kind is
Empty and whose kind in the parsed level (hence at dig time) was Brick, and no
two in-bounds Holes share coordinates.  Holes recorded at out-of-bounds
coordinates (reachable because out-of-bounds reads as Brick while grid writes
are silent no-ops) are exempt and may repeat. -/
theorem spec_c2_holes_invariant : ∀ acts : List Act, holesAmendedCheck (run acts) = true := by
  intro acts
  have hI := inv_run acts
  unfold holesAmendedCheck
  rw [Bool.and_eq_true]
  refine ⟨List.all_eq_true.mpr ?_, noDupInB_of_pairwise hI.holes.2⟩
  intro h hmem
  rw [dims_in_bounds hI.dims]
  by_cases hin : inB h.x h.y = true
  · obtain ⟨h1, h2, h3, h4⟩ := hI.holes.1 h hmem hin
    have hl0 : tile_at level0 h.x h.y = BRICK := by
      rw [h1]
      rw [tile_at_level0_toN (by omega) (by omega) (by omega) (by omega)]
      have h16 : (16 : Int).toNat = 16 := rfl
      rw [h16]
      exact lvl_row16 h.x.toNat (by omega)
    rw [hin, h4, hl0]
    rfl
  · simp only [Bool.not_eq_true] at hin
    rw [hin]
    rfl

-- ----------------------------
-- C3: the dig contract (corrected: an out-of-bounds target is not emptied)
-- ----------------------------

/-- C3, counterexample: in the reachable state after `traceOobDig` the player
sits at (12,16); for direction +1 the target (13,17) reads `Brick` and the
side cell (13,16) is occupiable, so by the claim the dig should set the target
to `Empty` and record a hole — but the target is out of bounds: the hole is
appended while the cell still reads `Brick`, so dig does not "set the target
cell to Empty". -/
theorem spec_c3_dig_cex :
    (run traceOobDig).player.x = 12 ∧ (run traceOobDig).player.y = 16 ∧
    tile_at (run traceOobDig).grid 13 17 = BRICK ∧
    is_walkable (tile_at (run traceOobDig).grid 13 16) = true ∧
    ((run traceOobDig).dig 1).holes =
      (run traceOobDig).holes ++ [⟨13, 17, HOLE_REGEN_FRAMES⟩] ∧
    tile_at ((run traceOobDig).dig 1).grid 13 17 = BRICK := by
  rw [run_traceOobDig]
  refine ⟨rfl, rfl, by decide, by decide, by decide, by decide⟩

/-- C3, amended: `dig(direction)` records a Hole at the target
`(playerX+direction, playerY+1)` with the fixed regeneration countdown iff the
target currently reads as Brick and the side cell beside the player at the
player's own row is occupiable; the grid write sets the target to Empty when
the target is within bounds and is a silent no-op otherwise (in particular an
out-of-bounds target keeps reading Brick); when either precondition fails the
whole state is unchanged; and dig is evaluated identically regardless of the
session status flags. -/
theorem spec_c3_dig_contract : ∀ (g : Game) (d : Int),
    (digPre g d →
      g.dig d = { g with grid := set_tile g.grid (g.player.x + d) (g.player.y + 1) EMPTY
                         holes := g.holes ++ [⟨g.player.x + d, g.player.y + 1, HOLE_REGEN_FRAMES⟩] }) ∧
    (¬digPre g d → g.dig d = g) ∧
    (∀ (w dd : Bool) (c : Int),
      Game.dig { g with won := w, dead := dd, countdown := c } d =
        { g.dig d with won := w, dead := dd, countdown := c }) := by
  intro g d
  refine ⟨fun h => dig_eq_pos h, fun h => dig_eq_neg h, ?_⟩
  intro w dd c
  by_cases hpre : digPre g d
  · have hpre2 : digPre { g with won := w, dead := dd, countdown := c } d := hpre
    rw [dig_eq_pos hpre2, dig_eq_pos hpre]
  · have hpre2 : ¬digPre { g with won := w, dead := dd, countdown := c } d := hpre
    rw [dig_eq_neg hpre2, dig_eq_neg hpre]

/-- Witness for the amended dig contract: from the freshly reset engine,
digging right succeeds (target (12,16) is Brick, side (12,15) occupiable),
digging with offset 8 fails silently (side cell (19,15) is the border wall),
and flipping the status flags does not change what dig does. -/
theorem spec_c3_dig_contract_witness :
    (Game.reset.dig 1 =
      { Game.reset with
          grid := set_tile Game.reset.grid (Game.reset.player.x + 1) (Game.reset.player.y + 1) EMPTY
          holes := Game.reset.holes ++
            [⟨Game.reset.player.x + 1, Game.reset.player.y + 1, HOLE_REGEN_FRAMES⟩] }) ∧
    (Game.reset.dig 8 = Game.reset) ∧
    (Game.dig { Game.reset with won := true, dead := true, countdown := 0 } 1 =
      { Game.reset.dig 1 with won := true, dead := true, countdown := 0 }) :=
  ⟨(spec_c3_dig_contract Game.reset 1).1 (by decide),
   (spec_c3_dig_contract Game.reset 8).2.1 (by decide),
   (spec_c3_dig_contract Game.reset 1).2.2 true true 0⟩

-- ----------------------------
-- C5: the gravity rule
-- ----------------------------

theorem game_eta_holes {g : Game} (h : g.holes = []) : { g with holes := ([] : List Hole) } = g := by
  cases g
  simp only at h
  rw [← h]

theorem update_holes_nil {g : Game} (h : g.holes = []) : g.update_holes = g := by
  unfold Game.update_holes
  rw [h]
  unfold Game.uhGo
  exact game_eta_holes h

theorem step_player_nograv {g : Game} (hh : g.holes = [])
    (hgr : g.gravity_applies g.player.x g.player.y = false) :
    g.step.player.x = g.player.x ∧ g.step.player.y = g.player.y := by
  have hdec := decCountdown_frame g
  have huh : g.decCountdown.update_holes = g.decCountdown :=
    update_holes_nil (by rw [hdec.2.2.2.1]; exact hh)
  unfold Game.step
  rw [huh]
  unfold Game.update_entities
  split
  · rw [hdec.2.1]
    exact ⟨rfl, rfl⟩
  · split
    · rw [hdec.2.1]
      exact ⟨rfl, rfl⟩
    · have hg1 : g.decCountdown.gravity_applies g.decCountdown.player.x
          g.decCountdown.player.y = false := by
        unfold Game.gravity_applies Game.tile at hgr ⊢
        rw [hdec.2.1, hdec.1]
        exact hgr
      have hpg : g.decCountdown.applyPlayerGravity = g.decCountdown := by
        unfold Game.applyPlayerGravity
        rw [hg1]
        simp
      rw [hpg]
      have f2 := collect_frame g.decCountdown
      have f3 := checkWin_frame g.decCountdown.collect_gold
      have f4 := moveEnemies_frame g.decCountdown.collect_gold.checkWin
      have f5 := checkCollision_frame g.decCountdown.collect_gold.checkWin.moveEnemies
      constructor
      · rw [f5.2.1, f4.2.1, f3.2.1, f2.1, hdec.2.1]
      · rw [f5.2.1, f4.2.1, f3.2.1, f2.2.1, hdec.2.1]

theorem step_player_fall {g : Game} (hh : g.holes = []) (hw : g.won = false)
    (hd : g.dead = false) (hc : g.countdown = 0)
    (h1 : tile_at g.grid g.player.x g.player.y = EMPTY)
    (h2 : tile_at g.grid g.player.x (g.player.y + 1) = EMPTY) :
    g.step.player.x = g.player.x ∧ g.step.player.y = g.player.y + 1 := by
  have hdec : g.decCountdown = g := by
    unfold Game.decCountdown
    rw [if_neg (by omega)]
  unfold Game.step
  rw [hdec, update_holes_nil hh]
  unfold Game.update_entities
  rw [if_neg (by rw [hw, hd]; simp), if_neg (by rw [hc]; simp)]
  have hgrav : g.gravity_applies g.player.x g.player.y = true := by
    simp [Game.gravity_applies, Game.tile, h1, h2, is_rope, is_climbable, is_solid,
      EMPTY, BRICK, LADDER, ROPE]
  have hx0 : g.player.x + 0 = g.player.x := by omega
  have hwk : is_walkable (g.tile (g.player.x + 0) (g.player.y + 1)) = true := by
    show is_walkable (tile_at g.grid (g.player.x + 0) (g.player.y + 1)) = true
    rw [hx0, h2]
    decide
  have hpg : g.applyPlayerGravity =
      { g with player := { g.player with x := g.player.x + 0, y := g.player.y + 1 } } := by
    unfold Game.applyPlayerGravity
    rw [hgrav]
    simp only [if_true]
    unfold Game.try_move
    rw [if_pos hwk]
  rw [hpg]
  set g1 := { g with player := { g.player with x := g.player.x + 0, y := g.player.y + 1 } }
  have f2 := collect_frame g1
  have f3 := checkWin_frame g1.collect_gold
  have f4 := moveEnemies_frame g1.collect_gold.checkWin
  have f5 := checkCollision_frame g1.collect_gold.checkWin.moveEnemies
  constructor
  · rw [f5.2.1, f4.2.1, f3.2.1, f2.1]
    exact hx0
  · rw [f5.2.1, f4.2.1, f3.2.1, f2.2.1]

/-- C5: `fallsAt` is exactly "current tile is neither Rope nor Ladder AND the
tile below is neither Solid nor Climbable"; consequently an entity on Rope or
Ladder never falls, and a player on Empty over Empty falls exactly one cell on
a Running tick. -/
theorem spec_c5_gravity_rule : ∀ (g : Game) (x y : Int),
    (g.gravity_applies x y =
      (!(is_rope (tile_at g.grid x y) || is_climbable (tile_at g.grid x y)) &&
       !(is_solid (tile_at g.grid x (y + 1)) || is_climbable (tile_at g.grid x (y + 1))))) ∧
    ((tile_at g.grid x y = ROPE ∨ tile_at g.grid x y = LADDER) →
      g.gravity_applies x y = false) ∧
    (tile_at g.grid x y = EMPTY → tile_at g.grid x (y + 1) = EMPTY →
      g.gravity_applies x y = true) ∧
    (g.holes = [] →
      (tile_at g.grid g.player.x g.player.y = ROPE ∨
        tile_at g.grid g.player.x g.player.y = LADDER) →
      g.step.player.x = g.player.x ∧ g.step.player.y = g.player.y) ∧
    (g.holes = [] → g.won = false → g.dead = false → g.countdown = 0 →
      tile_at g.grid g.player.x g.player.y = EMPTY →
      tile_at g.grid g.player.x (g.player.y + 1) = EMPTY →
      g.step.player.x = g.player.x ∧ g.step.player.y = g.player.y + 1) := by
  intro g x y
  have hrule : ∀ a b : Int, g.gravity_applies a b =
      (!(is_rope (tile_at g.grid a b) || is_climbable (tile_at g.grid a b)) &&
       !(is_solid (tile_at g.grid a (b + 1)) || is_climbable (tile_at g.grid a (b + 1)))) := by
    intro a b
    cases hr : is_rope (tile_at g.grid a b) <;>
      cases hcl : is_climbable (tile_at g.grid a b) <;>
        simp [Game.gravity_applies, Game.tile, hr, hcl]
  refine ⟨hrule x y, ?_, ?_, ?_, ?_⟩
  · intro h
    rcases h with h | h <;>
      simp [Game.gravity_applies, Game.tile, h, is_rope, is_climbable, ROPE, LADDER]
  · intro ha hb
    simp [Game.gravity_applies, Game.tile, ha, hb, is_rope, is_climbable, is_solid,
      EMPTY, BRICK, LADDER, ROPE]
  · intro hh ht
    refine step_player_nograv hh ?_
    rcases ht with h | h <;>
      simp [Game.gravity_applies, Game.tile, h, is_rope, is_climbable, ROPE, LADDER]
  · intro hh hw hd hc h1 h2
    exact step_player_fall hh hw hd hc h1 h2

/-- Witness for C5: the predicate-level conjuncts at the rope cell (3,5) of
the fresh level, the no-fall conjunct with the player placed on that rope, and
the exact-one-cell fall with the player in mid-air at (11,5) on a Running
tick. -/
theorem spec_c5_gravity_rule_witness :
    (Game.reset.gravity_applies 3 5 = false) ∧
    ((Game.stepN 1 { Game.reset with player := ⟨3, 5, 0⟩ }).player.x = 3 ∧
      (Game.stepN 1 { Game.reset with player := ⟨3, 5, 0⟩ }).player.y = 5) ∧
    ((Game.stepN 1 { Game.reset with countdown := 0, player := ⟨11, 5, 0⟩ }).player.x = 11 ∧
      (Game.stepN 1 { Game.reset with countdown := 0, player := ⟨11, 5, 0⟩ }).player.y = 6) := by
  refine ⟨?_, ?_, ?_⟩
  · exact (spec_c5_gravity_rule Game.reset 3 5).2.1 (Or.inl (by decide))
  · exact (spec_c5_gravity_rule { Game.reset with player := ⟨3, 5, 0⟩ } 0 0).2.2.2.1
      (by decide) (Or.inl (by decide))
  · exact (spec_c5_gravity_rule { Game.reset with countdown := 0, player := ⟨11, 5, 0⟩ } 0 0).2.2.2.2
      (by decide) (by decide) (by decide) (by decide) (by decide) (by decide)

-- ----------------------------
-- C10: hole regeneration never touches the player
-- ----------------------------

/-- C10: when a hole's timer expires, only enemies occupying its cell are
relocated: even when the player stands in the hole's cell on the expiry tick,
the cell still becomes Brick and the hole is removed, while the player's
coordinates, gold count, and the session status flags are unchanged by the
regeneration — the player is sealed inside the regenerated Brick. -/
theorem spec_c10_player_sealed : ∀ (g : Game) (x y : Int),
    g.holes = [⟨x, y, 1⟩] → g.player.x = x → g.player.y = y →
    g.update_holes.player = g.player ∧ g.update_holes.won = g.won ∧
    g.update_holes.dead = g.dead ∧ g.update_holes.countdown = g.countdown ∧
    tile_at g.update_holes.grid x y = BRICK ∧ g.update_holes.holes = [] ∧
    g.update_holes.enemies = crushAt g.enemies x y := by
  intro g x y hh _ _
  have huh : g.update_holes = Game.uhGo [⟨x, y, 1⟩] [] g := by
    unfold Game.update_holes
    rw [hh]
  rw [huh]
  unfold Game.uhGo
  rw [if_pos (show ((⟨x, y, 1⟩ : Hole).timer - 1 ≤ 0) from by
    show (1 : Int) - 1 ≤ 0
    norm_num)]
  unfold Game.uhGo
  exact ⟨rfl, rfl, rfl, rfl, tile_at_set_brick g.grid x y, rfl, rfl⟩

/-- A state with the player inside the sole hole at (5,16) on the tick its
timer reaches zero. -/
def sealedG : Game :=
  ⟨set_tile level0 5 16 EMPTY, ⟨5, 16, 0⟩, [⟨17, 9, (17, 9)⟩], [⟨5, 16, 1⟩],
    (13, 11), false, false, 300, 0⟩

/-- Witness for C10. -/
theorem spec_c10_player_sealed_witness :
    sealedG.update_holes.player = sealedG.player ∧
    tile_at sealedG.update_holes.grid 5 16 = BRICK ∧
    sealedG.update_holes.holes = [] := by
  have h := spec_c10_player_sealed sealedG 5 16 rfl rfl rfl
  exact ⟨h.1, h.2.2.2.2.1, h.2.2.2.2.2.1⟩

-- ----------------------------
-- C4: hole timers and the regeneration lifecycle
-- ----------------------------

theorem update_holes_expire {g : Game} {x y : Int} (hh : g.holes = [⟨x, y, 1⟩]) :
    g.update_holes = { g with enemies := crushAt g.enemies x y
                              grid := set_tile g.grid x y BRICK
                              holes := [] } := by
  unfold Game.update_holes
  rw [hh]
  unfold Game.uhGo
  rw [if_pos (show ((⟨x, y, 1⟩ : Hole).timer - 1 ≤ 0) from by
    show (1 : Int) - 1 ≤ 0
    norm_num)]
  unfold Game.uhGo
  rfl

theorem uhHoles_eq_filter (hs : List Hole) :
    uhHoles hs =
      (hs.map fun h => ⟨h.x, h.y, h.timer - 1⟩).filter fun h => decide (0 < h.timer) := by
  induction hs with
  | nil => rfl
  | cons h t ih =>
    unfold uhHoles
    simp only [List.map_cons, List.filter_cons]
    split
    · rename_i hle
      rw [if_neg (by simp only [decide_eq_true_eq]; omega)]
      exact ih
    · rename_i hgt
      rw [if_pos (by simp only [decide_eq_true_eq]; omega)]
      rw [ih]

theorem step_holes (g : Game) : g.step.holes = uhHoles g.holes := by
  show (g.decCountdown.update_holes.update_entities).holes = _
  rw [(update_entities_frame _).1]
  unfold Game.update_holes
  rw [uhGo_holes, (decCountdown_frame g).2.2.2.1]
  simp

theorem crushAt_respawn (es : List Enemy) (hx hy : Int) (P : Int × Int → Prop)
    (h : ∀ e ∈ es, P e.respawn) : ∀ e' ∈ crushAt es hx hy, P e'.respawn := by
  intro e' hm
  obtain ⟨e, hmem, heq⟩ := List.mem_map.mp hm
  rw [← heq]
  split
  · exact h e hmem
  · exact h e hmem

theorem uhGo_respawn (pending done : List Hole) (g : Game) (P : Int × Int → Prop)
    (h : ∀ e ∈ g.enemies, P e.respawn) :
    ∀ e ∈ (Game.uhGo pending done g).enemies, P e.respawn := by
  induction pending generalizing done g with
  | nil => exact h
  | cons h0 rest ih =>
    unfold Game.uhGo
    split
    · exact ih done _ (crushAt_respawn g.enemies h0.x h0.y P h)
    · exact ih _ g h

theorem tme_respawn (g : Game) (i : Nat) (dx dy : Int) (P : Int × Int → Prop)
    (h : ∀ e ∈ g.enemies, P e.respawn) :
    ∀ e' ∈ (g.try_move_enemy i dx dy).1.enemies, P e'.respawn := by
  rcases tme_cases g i dx dy with hr | ⟨e, hget, hw, hr⟩
  · rw [hr]
    exact h
  · rw [hr]
    intro e' hm
    rcases mem_of_mem_set hm with h1 | h1
    · rw [h1]
      exact h e (List.get?_mem hget)
    · exact h e' h1

theorem enemyTick_respawn (g : Game) (i : Nat) (P : Int × Int → Prop)
    (h : ∀ e ∈ g.enemies, P e.respawn) :
    ∀ e' ∈ (g.enemyTick i).enemies, P e'.respawn := by
  rcases enemyTick_cases g i with hr | ⟨dx, dy, hr⟩
  · rw [hr]
    exact h
  · rw [hr]
    exact tme_respawn g i dx dy P h

theorem fold_respawn (l : List Nat) (g : Game) (P : Int × Int → Prop)
    (h : ∀ e ∈ g.enemies, P e.respawn) :
    ∀ e ∈ (l.foldl Game.enemyTick g).enemies, P e.respawn := by
  induction l generalizing g with
  | nil => exact h
  | cons i rest ih =>
    simp only [List.foldl_cons]
    exact ih (g.enemyTick i) (enemyTick_respawn g i P h)

theorem moveEnemies_respawn (g : Game) (P : Int × Int → Prop)
    (h : ∀ e ∈ g.enemies, P e.respawn) :
    ∀ e ∈ g.moveEnemies.enemies, P e.respawn := by
  unfold Game.moveEnemies
  split
  · exact fold_respawn _ _ P h
  · exact h

theorem ue_respawn (g : Game) (P : Int × Int → Prop)
    (h : ∀ e ∈ g.enemies, P e.respawn) :
    ∀ e ∈ g.update_entities.enemies, P e.respawn := by
  unfold Game.update_entities
  split
  · exact h
  · split
    · exact h
    · have h1 : ∀ e ∈ g.applyPlayerGravity.enemies, P e.respawn := by
        rw [(pgrav_frame g).2.2.1]
        exact h
      have h2 : ∀ e ∈ g.applyPlayerGravity.collect_gold.enemies, P e.respawn := by
        rw [(collect_frame _).2.2.2.1]
        exact h1
      have h3 : ∀ e ∈ g.applyPlayerGravity.collect_gold.checkWin.enemies, P e.respawn := by
        rw [(checkWin_frame _).2.2.1]
        exact h2
      have h4 := moveEnemies_respawn _ P h3
      rw [(checkCollision_frame _).2.2.1]
      exact h4

theorem step_respawn (g : Game) (P : Int × Int → Prop)
    (h : ∀ e ∈ g.enemies, P e.respawn) : ∀ e ∈ g.step.enemies, P e.respawn := by
  unfold Game.step
  apply ue_respawn
  apply uhGo_respawn
  rw [(decCountdown_frame g).2.2.1]
  exact h

theorem tme_avoid {g : Game} {x y : Int} (hb : tile_at g.grid x y = BRICK)
    (h : ∀ e ∈ g.enemies, ¬(e.x = x ∧ e.y = y)) (i : Nat) (dx dy : Int) :
    ∀ e' ∈ (g.try_move_enemy i dx dy).1.enemies, ¬(e'.x = x ∧ e'.y = y) := by
  rcases tme_cases g i dx dy with hr | ⟨e, hget, hw, hr⟩
  · rw [hr]
    exact h
  · rw [hr]
    intro e' hm
    rcases mem_of_mem_set hm with h1 | h1
    · rw [h1]
      intro hcon
      have hx : e.x + dx = x := hcon.1
      have hy : e.y + dy = y := hcon.2
      rw [hx, hy, hb] at hw
      exact absurd hw (by decide)
    · exact h e' h1

theorem enemyTick_avoid {g : Game} {x y : Int} (hb : tile_at g.grid x y = BRICK)
    (h : ∀ e ∈ g.enemies, ¬(e.x = x ∧ e.y = y)) (i : Nat) :
    ∀ e' ∈ (g.enemyTick i).enemies, ¬(e'.x = x ∧ e'.y = y) := by
  rcases enemyTick_cases g i with hr | ⟨dx, dy, hr⟩
  · rw [hr]
    exact h
  · rw [hr]
    exact tme_avoid hb h i dx dy

theorem fold_avoid (l : List Nat) (g : Game) {x y : Int} (hb : tile_at g.grid x y = BRICK)
    (h : ∀ e ∈ g.enemies, ¬(e.x = x ∧ e.y = y)) :
    ∀ e ∈ (l.foldl Game.enemyTick g).enemies, ¬(e.x = x ∧ e.y = y) := by
  induction l generalizing g with
  | nil => exact h
  | cons i rest ih =>
    simp only [List.foldl_cons]
    exact ih (g.enemyTick i) (by rw [(enemyTick_frame g i).1]; exact hb)
      (enemyTick_avoid hb h i)

theorem moveEnemies_avoid {g : Game} {x y : Int} (hb : tile_at g.grid x y = BRICK)
    (h : ∀ e ∈ g.enemies, ¬(e.x = x ∧ e.y = y)) :
    ∀ e ∈ g.moveEnemies.enemies, ¬(e.x = x ∧ e.y = y) := by
  unfold Game.moveEnemies
  split
  · exact fold_avoid _ _ hb h
  · exact h

theorem ue_brick_avoid {g : Game} {x y : Int} (hb : tile_at g.grid x y = BRICK)
    (h : ∀ e ∈ g.enemies, ¬(e.x = x ∧ e.y = y)) :
    tile_at g.update_entities.grid x y = BRICK ∧
    ∀ e ∈ g.update_entities.enemies, ¬(e.x = x ∧ e.y = y) := by
  unfold Game.update_entities
  split
  · exact ⟨hb, h⟩
  · split
    · exact ⟨hb, h⟩
    · have hb1 : tile_at g.applyPlayerGravity.grid x y = BRICK := by
        rw [(pgrav_frame g).1]
        exact hb
      have h1 : ∀ e ∈ g.applyPlayerGravity.enemies, ¬(e.x = x ∧ e.y = y) := by
        rw [(pgrav_frame g).2.2.1]
        exact h
      have hb2 : tile_at g.applyPlayerGravity.collect_gold.grid x y = BRICK := by
        rcases collect_grid_cases g.applyPlayerGravity with hgr | ⟨hgold, hgr⟩
        · rw [hgr]
          exact hb1
        · rw [hgr]
          have hne : ¬(x = g.applyPlayerGravity.player.x ∧
              y = g.applyPlayerGravity.player.y) := by
            intro hcon
            rw [hcon.1, hcon.2] at hb1
            rw [hgold] at hb1
            exact absurd hb1 (by decide)
          rw [tile_at_set_tile_ne _ _ _ _ _ _ hne]
          exact hb1
      have h2 : ∀ e ∈ g.applyPlayerGravity.collect_gold.enemies, ¬(e.x = x ∧ e.y = y) := by
        rw [(collect_frame _).2.2.2.1]
        exact h1
      have hb3 : tile_at g.applyPlayerGravity.collect_gold.checkWin.grid x y = BRICK := by
        rw [(checkWin_frame _).1]
        exact hb2
      have h3 : ∀ e ∈ g.applyPlayerGravity.collect_gold.checkWin.enemies,
          ¬(e.x = x ∧ e.y = y) := by
        rw [(checkWin_frame _).2.2.1]
        exact h2
      have h4 := moveEnemies_avoid hb3 h3
      have hb4 : tile_at g.applyPlayerGravity.collect_gold.checkWin.moveEnemies.grid x y =
          BRICK := by
        rw [(moveEnemies_frame _).1]
        exact hb3
      constructor
      · rw [(checkCollision_frame _).1]
        exact hb4
      · rw [(checkCollision_frame _).2.2.1]
        exact h4

theorem step_hole_expire {g : Game} {x y : Int} (hh : g.holes = [⟨x, y, 1⟩])
    (hresp : ∀ e ∈ g.enemies, e.respawn ≠ (x, y)) :
    tile_at g.step.grid x y = BRICK ∧ g.step.holes = [] ∧
    ∀ e ∈ g.step.enemies, ¬(e.x = x ∧ e.y = y) := by
  unfold Game.step
  have hdec := decCountdown_frame g
  have hh1 : g.decCountdown.holes = [⟨x, y, 1⟩] := by
    rw [hdec.2.2.2.1]
    exact hh
  rw [update_holes_expire hh1]
  have hb2 : tile_at (set_tile g.decCountdown.grid x y BRICK) x y = BRICK :=
    tile_at_set_brick _ x y
  have havoid2 : ∀ e ∈ crushAt g.decCountdown.enemies x y, ¬(e.x = x ∧ e.y = y) := by
    intro e' hm
    obtain ⟨e, hmem, heq⟩ := List.mem_map.mp hm
    have hre : e.respawn ≠ (x, y) := by
      apply hresp
      rw [← hdec.2.2.1]
      exact hmem
    rw [← heq]
    split
    · intro hcon
      exact hre (Prod.ext hcon.1 hcon.2)
    · rename_i hcond
      intro hcon
      simp only [Bool.and_eq_true, beq_iff_eq, not_and] at hcond
      exact hcond hcon.1 hcon.2
  have main := ue_brick_avoid (g := { g.decCountdown with
      enemies := crushAt g.decCountdown.enemies x y
      grid := set_tile g.decCountdown.grid x y BRICK
      holes := [] }) hb2 havoid2
  exact ⟨main.1, (update_entities_frame _).1, main.2⟩

theorem hole_lifecycle_aux : ∀ (n : Nat) (g : Game) (x y : Int),
    g.holes = [⟨x, y, (n : Int) + 1⟩] → (∀ e ∈ g.enemies, e.respawn ≠ (x, y)) →
    tile_at (Game.stepN (n + 1) g).grid x y = BRICK ∧ (Game.stepN (n + 1) g).holes = [] ∧
    ∀ e ∈ (Game.stepN (n + 1) g).enemies, ¬(e.x = x ∧ e.y = y) := by
  intro n
  induction n with
  | zero =>
    intro g x y hh hresp
    rw [show ((0 : Nat) : Int) + 1 = 1 by norm_num] at hh
    exact step_hole_expire hh hresp
  | succ m ih =>
    intro g x y hh hresp
    have hstep : g.step.holes = [⟨x, y, (m : Int) + 1⟩] := by
      rw [step_holes, hh]
      unfold uhHoles
      rw [if_neg (show ¬((⟨x, y, ((m + 1 : Nat) : Int) + 1⟩ : Hole).timer - 1 ≤ 0) from by
        show ¬(((m + 1 : Nat) : Int) + 1 - 1 ≤ 0)
        push_cast
        omega)]
      unfold uhHoles
      rw [show ((m + 1 : Nat) : Int) + 1 - 1 = (m : Int) + 1 by push_cast; ring]
    have hresp2 : ∀ e ∈ g.step.enemies, e.respawn ≠ (x, y) :=
      step_respawn g (fun r => r ≠ (x, y)) hresp
    exact ih g.step x y hstep hresp2

/-- C4: every `step()` decrements every hole's timer by one (expired holes are
removed); on the expiry tick any enemy at the hole's cell is relocated to its
respawn coordinate, the cell reverts to Brick and the record is removed; a
freshly dug hole carries `HOLE_REGEN_FRAMES = 240`, and for a single
non-interfered hole the cell is Brick again, the hole set empty, and no enemy
inside the cell exactly 240 ticks later. -/
theorem spec_c4_hole_lifecycle :
    (∀ g : Game, g.step.holes =
      (g.holes.map fun h => ⟨h.x, h.y, h.timer - 1⟩).filter fun h => decide (0 < h.timer)) ∧
    (∀ (g : Game) (x y : Int), g.holes = [⟨x, y, 1⟩] →
      g.update_holes.enemies = crushAt g.enemies x y ∧
      tile_at g.update_holes.grid x y = BRICK ∧ g.update_holes.holes = []) ∧
    (∀ (g : Game) (x y : Int), g.holes = [⟨x, y, HOLE_REGEN_FRAMES⟩] →
      (∀ e ∈ g.enemies, e.respawn ≠ (x, y)) →
      tile_at (Game.stepN 240 g).grid x y = BRICK ∧ (Game.stepN 240 g).holes = [] ∧
      ∀ e ∈ (Game.stepN 240 g).enemies, ¬(e.x = x ∧ e.y = y)) := by
  refine ⟨?_, ?_, ?_⟩
  · intro g
    rw [step_holes, uhHoles_eq_filter]
  · intro g x y hh
    rw [update_holes_expire hh]
    exact ⟨rfl, tile_at_set_brick _ x y, rfl⟩
  · intro g x y hh hresp
    have hh2 : g.holes = [⟨x, y, ((239 : Nat) : Int) + 1⟩] := by
      rw [hh]
      rw [show ((239 : Nat) : Int) + 1 = HOLE_REGEN_FRAMES by norm_num [HOLE_REGEN_FRAMES]]
    exact hole_lifecycle_aux 239 g x y hh2 hresp

/-- Witness for C4: a single hole at (5,16) dug on a fresh level, with the
enemy's respawn away from the cell. -/
theorem spec_c4_hole_lifecycle_witness :
    (sealedG.step.holes =
      (sealedG.holes.map fun h => ⟨h.x, h.y, h.timer - 1⟩).filter fun h =>
        decide (0 < h.timer)) ∧
    (sealedG.update_holes.enemies = crushAt sealedG.enemies 5 16 ∧
      tile_at sealedG.update_holes.grid 5 16 = BRICK ∧ sealedG.update_holes.holes = []) ∧
    (tile_at (Game.stepN 240 { sealedG with holes := [⟨5, 16, HOLE_REGEN_FRAMES⟩] }).grid
        5 16 = BRICK ∧
      (Game.stepN 240 { sealedG with holes := [⟨5, 16, HOLE_REGEN_FRAMES⟩] }).holes = [] ∧
      ∀ e ∈ (Game.stepN 240 { sealedG with holes := [⟨5, 16, HOLE_REGEN_FRAMES⟩] }).enemies,
        ¬(e.x = 5 ∧ e.y = 16)) := by
  refine ⟨spec_c4_hole_lifecycle.1 sealedG, spec_c4_hole_lifecycle.2.1 sealedG 5 16 rfl, ?_⟩
  exact spec_c4_hole_lifecycle.2.2 { sealedG with holes := [⟨5, 16, HOLE_REGEN_FRAMES⟩] }
    5 16 rfl (by decide)

-- ----------------------------
-- C6: the win condition
-- ----------------------------

/-- The engine state at the win-evaluation point of a tick: after the
countdown decrement, hole regeneration, player gravity and gold pickup. -/
def preWin (g : Game) : Game :=
  g.decCountdown.update_holes.applyPlayerGravity.collect_gold

theorem step_running_eq {g : Game} (hw : g.won = false) (hd : g.dead = false)
    (hc : g.countdown ≤ 1) :
    g.step = (preWin g).checkWin.moveEnemies.checkCollision := by
  have hdec := decCountdown_frame g
  have huh := update_holes_frame g.decCountdown
  have hw1 : g.decCountdown.update_holes.won = false := by
    rw [huh.2.2.1, hdec.2.2.2.2.2.1]
    exact hw
  have hd1 : g.decCountdown.update_holes.dead = false := by
    rw [huh.2.2.2.1, hdec.2.2.2.2.2.2.1]
    exact hd
  have hc1 : ¬0 < g.decCountdown.update_holes.countdown := by
    rw [huh.2.2.2.2.1]
    unfold Game.decCountdown
    split
    · show ¬0 < g.countdown - 1
      omega
    · rename_i hcc
      show ¬0 < g.countdown
      omega
  show g.decCountdown.update_holes.update_entities = _
  unfold Game.update_entities
  rw [if_neg (by rw [hw1, hd1]; simp), if_neg (by simpa using hc1)]
  rfl

/-- C6: on a Running tick the status becomes Won iff, at the win-evaluation
point, no Gold tile remains anywhere in the grid and the player's coordinates
equal the exit coordinate; and the win condition is never evaluated while the
status is Starting, Won, or Lost. -/
theorem spec_c6_win_condition : ∀ g : Game,
    (g.won = false → g.dead = false → g.countdown ≤ 1 →
      (g.step.won = true ↔
        anyGold (preWin g).grid = false ∧
          ((preWin g).player.x, (preWin g).player.y) = (preWin g).exit_pos)) ∧
    ((g.won = true ∨ g.dead = true ∨ 2 ≤ g.countdown) → g.step.won = g.won) := by
  intro g
  constructor
  · intro hw hd hc
    rw [step_running_eq hw hd hc]
    rw [(checkCollision_frame _).2.2.2.2.2.1, (moveEnemies_frame _).2.2.2.2.1]
    have hwpre : (preWin g).won = false := by
      show (g.decCountdown.update_holes.applyPlayerGravity.collect_gold).won = false
      rw [(collect_frame _).2.2.2.2.2.1, (pgrav_frame _).2.2.2.2.1,
        (update_holes_frame _).2.2.1, (decCountdown_frame g).2.2.2.2.2.1]
      exact hw
    unfold Game.checkWin
    split
    · rename_i hcond
      simp only [Bool.and_eq_true, Bool.not_eq_true', beq_iff_eq] at hcond
      exact ⟨fun _ => ⟨hcond.1, hcond.2⟩, fun _ => rfl⟩
    · rename_i hcond
      rw [hwpre]
      constructor
      · intro hfalse
        exact absurd hfalse (by decide)
      · intro ⟨h1, h2⟩
        exfalso
        apply hcond
        rw [Bool.and_eq_true, Bool.not_eq_true']
        exact ⟨h1, by rw [beq_iff_eq]; exact h2⟩
  · intro h
    have hdec := decCountdown_frame g
    have huh := update_holes_frame g.decCountdown
    show (g.decCountdown.update_holes.update_entities).won = g.won
    rcases h with h | h | h
    · unfold Game.update_entities
      rw [if_pos (by rw [huh.2.2.1, hdec.2.2.2.2.2.1, h]; simp)]
      rw [huh.2.2.1, hdec.2.2.2.2.2.1]
    · unfold Game.update_entities
      rw [if_pos (by rw [huh.2.2.2.1, hdec.2.2.2.2.2.2.1, h]; simp)]
      rw [huh.2.2.1, hdec.2.2.2.2.2.1]
    · unfold Game.update_entities
      split
      · rw [huh.2.2.1, hdec.2.2.2.2.2.1]
      · rw [if_pos ?side]
        · rw [huh.2.2.1, hdec.2.2.2.2.2.1]
        case side =>
          rw [huh.2.2.2.2.1]
          unfold Game.decCountdown
          rw [if_pos (by omega)]
          simp only [decide_eq_true_eq]
          omega
  
/-- The level grid with all three gold tiles removed. -/
def grid_nogold : List (List Nat) :=
  set_tile (set_tile (set_tile level0 12 1 EMPTY) 9 5 EMPTY) 12 9 EMPTY

/-- A Running state with no gold left and the player one cell above the exit;
the gravity phase drops the player onto the exit at the win-evaluation point. -/
def winG : Game :=
  ⟨grid_nogold, ⟨13, 10, 3⟩, [⟨17, 9, (17, 9)⟩], [], (13, 11), false, false, 0, 0⟩

/-- Witness for C6: `winG` wins on the next tick; the fresh engine (Starting,
countdown 300) keeps `won` unchanged. -/
theorem spec_c6_win_condition_witness :
    winG.step.won = true ∧ Game.reset.step.won = Game.reset.won := by
  constructor
  · exact ((spec_c6_win_condition winG).1 rfl rfl (by decide)).mpr (by decide)
  · exact (spec_c6_win_condition Game.reset).2 (Or.inr (Or.inr (by decide)))

-- ----------------------------
-- C8: the collision check
-- ----------------------------

/-- The engine state at the collision-check point of a Running tick: after
countdown, hole regeneration, gravity, gold pickup, win evaluation and the
cadence-gated enemy movement. -/
def preCollision (g : Game) : Game := (preWin g).checkWin.moveEnemies

/-- C8: on a Running tick the status becomes Lost iff some enemy's coordinates
equal the player's at the collision-check point; the check runs every Running
tick regardless of the enemy-movement cadence counter, so a stationary enemy
overlapping a stationary player still causes Lost on that same tick. -/
theorem spec_c8_collision : ∀ g : Game,
    (g.won = false → g.dead = false → g.countdown ≤ 1 →
      (g.step.dead = true ↔ anyEnemyAtPlayer (preCollision g) = true)) ∧
    (g.won = false → g.dead = false → g.countdown ≤ 1 → g.holes = [] →
      g.enemy_frame_counter + 1 < ENEMY_MOVE_INTERVAL →
      g.gravity_applies g.player.x g.player.y = false →
      ∀ e ∈ g.enemies, e.x = g.player.x → e.y = g.player.y → g.step.dead = true) := by
  intro g
  have part1 : g.won = false → g.dead = false → g.countdown ≤ 1 →
      (g.step.dead = true ↔ anyEnemyAtPlayer (preCollision g) = true) := by
    intro hw hd hc
    rw [step_running_eq hw hd hc]
    have hdpre : (preCollision g).dead = false := by
      show ((g.decCountdown.update_holes.applyPlayerGravity.collect_gold).checkWin.moveEnemies).dead = false
      rw [(moveEnemies_frame _).2.2.2.2.2.1, (checkWin_frame _).2.2.2.2.2.1,
        (collect_frame _).2.2.2.2.2.2.1, (pgrav_frame _).2.2.2.2.2.1,
        (update_holes_frame _).2.2.2.1, (decCountdown_frame g).2.2.2.2.2.2.1]
      exact hd
    show ((preCollision g).checkCollision).dead = true ↔ _
    unfold Game.checkCollision
    split
    · rename_i hcol
      exact ⟨fun _ => hcol, fun _ => rfl⟩
    · rename_i hcol
      rw [hdpre]
      constructor
      · intro hfalse
        exact absurd hfalse (by decide)
      · intro hay
        exact absurd hay hcol
  refine ⟨part1, ?_⟩
  intro hw hd hc hh hcad hgrav e hmem hex hey
  rw [part1 hw hd hc]
  have hdec := decCountdown_frame g
  have huh : g.decCountdown.update_holes = g.decCountdown :=
    update_holes_nil (by rw [hdec.2.2.2.1]; exact hh)
  have hg1 : g.decCountdown.gravity_applies g.decCountdown.player.x
      g.decCountdown.player.y = false := by
    unfold Game.gravity_applies Game.tile at hgrav ⊢
    rw [hdec.2.1, hdec.1]
    exact hgrav
  have hpg : g.decCountdown.applyPlayerGravity = g.decCountdown := by
    unfold Game.applyPlayerGravity
    rw [hg1]
    simp
  have hpw : preWin g = g.decCountdown.collect_gold := by
    unfold preWin
    rw [huh, hpg]
  have f2 := collect_frame g.decCountdown
  have f3 := checkWin_frame g.decCountdown.collect_gold
  have hcounter : (preWin g).checkWin.enemy_frame_counter = g.enemy_frame_counter := by
    rw [hpw, f3.2.2.2.2.2.2.2, f2.2.2.2.2.2.2.2.2, hdec.2.2.2.2.2.2.2]
  have hme : (preWin g).checkWin.moveEnemies =
      { (preWin g).checkWin with
          enemy_frame_counter := (preWin g).checkWin.enemy_frame_counter + 1 } := by
    unfold Game.moveEnemies
    rw [if_neg (by rw [hcounter]; omega)]
  have hen : (preWin g).checkWin.enemies = g.enemies := by
    rw [hpw, f3.2.2.1, f2.2.2.2.1, hdec.2.2.1]
  have hplx : (preWin g).checkWin.player.x = g.player.x := by
    rw [hpw, f3.2.1, f2.1, hdec.2.1]
  have hply : (preWin g).checkWin.player.y = g.player.y := by
    rw [hpw, f3.2.1, f2.2.1, hdec.2.1]
  show anyEnemyAtPlayer ((preWin g).checkWin.moveEnemies) = true
  rw [hme]
  unfold anyEnemyAtPlayer
  apply List.any_eq_true.mpr
  refine ⟨e, ?_, ?_⟩
  · show e ∈ (preWin g).checkWin.enemies
    rw [hen]
    exact hmem
  · show (e.x == (preWin g).checkWin.player.x && e.y == (preWin g).checkWin.player.y) = true
    rw [hplx, hply, hex, hey]
    simp

/-- A Running state with a stationary enemy standing exactly on the supported,
stationary player. -/
def overlapG : Game :=
  ⟨level0, ⟨11, 15, 0⟩, [⟨11, 15, (17, 9)⟩], [], (13, 11), false, false, 0, 0⟩

/-- Witness for C8: the overlapping stationary enemy kills the player on the
very next tick, a non-cadence tick. -/
theorem spec_c8_collision_witness : overlapG.step.dead = true :=
  (spec_c8_collision overlapG).2 rfl rfl (by decide) rfl (by decide) (by decide)
    ⟨11, 15, (17, 9)⟩ (by decide) rfl rfl

-- ----------------------------
-- C7: the starting gate
-- ----------------------------

/-- All entity coordinates of a state: the player's, then each enemy's. -/
def posList (s : Game) : List (Int × Int) :=
  (s.player.x, s.player.y) :: (s.enemies.map fun e => (e.x, e.y))

/-- The starting-gate property of a single state: while the countdown is
positive, every movement intent is a no-op, `step` decrements the countdown by
exactly one, and (as long as the tick still begins in `Starting`, i.e. the
countdown is at least 2) no player or enemy coordinate changes during the
tick. -/
def startingCheck (s : Game) : Bool :=
  if 0 < s.countdown then
    decide (s.handle_player_move (-1) 0 = s) && decide (s.handle_player_move 1 0 = s) &&
    decide (s.handle_player_move 0 (-1) = s) && decide (s.handle_player_move 0 1 = s) &&
    decide (s.step.countdown = s.countdown - 1) &&
    (if 2 ≤ s.countdown then decide (posList s.step = posList s) else true)
  else true

theorem step_countdown_dec {s : Game} (h : 0 < s.countdown) :
    s.step.countdown = s.countdown - 1 := by
  show (s.decCountdown.update_holes.update_entities).countdown = _
  rw [(update_entities_frame _).2.1, (update_holes_frame _).2.2.2.2.1]
  unfold Game.decCountdown
  rw [if_pos h]

/-- C7: while the session status is Starting(n), movement intents are ignored
and no player or enemy coordinate changes during a tick; each `step()`
decrements n by one (the status becomes Running when it reaches 0). -/
theorem spec_c7_starting_gate : ∀ acts : List Act, startingCheck (run acts) = true := by
  intro acts
  have hI := inv_run acts
  unfold startingCheck
  split
  · rename_i hcd
    obtain ⟨hw, hd, hpx, hpy, hen⟩ := hI.start hcd
    have hblock : ∀ dx dy : Int, (run acts).handle_player_move dx dy = run acts := by
      intro dx dy
      unfold Game.handle_player_move
      rw [if_pos (by rw [decide_eq_true hcd]; simp)]
    have hcnt := step_countdown_dec hcd
    have hpos : 2 ≤ (run acts).countdown → posList (run acts).step = posList (run acts) := by
      intro h2
      have hIstep : EngineInv (run acts).step := step_inv hI
      have hcd2 : 0 < (run acts).step.countdown := by
        rw [hcnt]
        omega
      obtain ⟨_, _, hpx2, hpy2, hen2⟩ := hIstep.start hcd2
      unfold posList
      rw [hen, hen2, hpx, hpy, hpx2, hpy2]
    rw [decide_eq_true (hblock (-1) 0), decide_eq_true (hblock 1 0),
      decide_eq_true (hblock 0 (-1)), decide_eq_true (hblock 0 1),
      decide_eq_true hcnt]
    simp only [Bool.true_and]
    split
    · rename_i h2
      exact decide_eq_true (hpos h2)
    · rfl
  · rfl

-- ----------------------------
-- C9: the enemy chase policy
-- ----------------------------

/-- The chase policy as the specification words it, a pure function of the
enemy's tile neighbourhood and the two positions.  Priority order, first
applicable rule wins: (1) ladder alignment — step up when the player is
strictly above, the tile above is occupiable, current-or-above is climbable,
and one of current/above/below is climbable; symmetrically step down; (2)
same-row chase — one cell toward the player's column, no move and no lower
rule when column-aligned; (3) fallback — one cell toward the player's
column. -/
def chaseDecision (here up down : Nat) (px py ex ey : Int) : Option (Int × Int) :=
  if decide (py < ey) && is_walkable up && (is_climbable here || is_climbable up) &&
      (is_climbable here || is_climbable up || is_climbable down) then some (0, -1)
  else if decide (py > ey) && is_walkable down && (is_climbable here || is_climbable down) &&
      (is_climbable here || is_climbable up || is_climbable down) then some (0, 1)
  else if decide (py = ey) then
    if decide (px < ex) then some (-1, 0)
    else if decide (px > ex) then some (1, 0)
    else none
  else if decide (px < ex) then some (-1, 0)
  else if decide (px > ex) then some (1, 0)
  else none

/-- Execute one decision through the validated movement function. -/
def applyDecision (g : Game) (i : Nat) : Option (Int × Int) → Game
  | some (dx, dy) => (g.try_move_enemy i dx dy).1
  | none => g

/-- The decision structure of `enemy_ai_step` read off the code: the ladder
block guarded by any climbable neighbour, then the same-row section, then the
fallback section (both horizontal sections attempt the same moves). -/
def codeDecision (here up down : Nat) (px py ex ey : Int) : Option (Int × Int) :=
  if is_climbable here || is_climbable down || is_climbable up then
    if decide (py < ey) && is_walkable up && (is_climbable here || is_climbable up) then
      some (0, -1)
    else if decide (py > ey) && is_walkable down && (is_climbable here || is_climbable down) then
      some (0, 1)
    else if py == ey then
      if px < ex then some (-1, 0) else if px > ex then some (1, 0) else none
    else
      if px < ex then some (-1, 0) else if px > ex then some (1, 0) else none
  else if py == ey then
    if px < ex then some (-1, 0) else if px > ex then some (1, 0) else none
  else
    if px < ex then some (-1, 0) else if px > ex then some (1, 0) else none

theorem decision_eq (here up down : Nat) (px py ex ey : Int) :
    codeDecision here up down px py ex ey = chaseDecision here up down px py ex ey := by
  unfold codeDecision chaseDecision
  cases hH : is_climbable here <;> cases hU : is_climbable up <;>
    cases hD : is_climbable down <;>
      simp [decide_eq_true_eq, ite_self, beq_iff_eq]

theorem ai_step_eq_code (g : Game) (i : Nat) :
    g.enemy_ai_step i = applyDecision g i
      (match g.enemies.get? i with
       | none => none
       | some e => codeDecision (g.tile e.x e.y) (g.tile e.x (e.y - 1))
           (g.tile e.x (e.y + 1)) g.player.x g.player.y e.x e.y) := by
  cases hget : g.enemies.get? i with
  | none =>
    unfold Game.enemy_ai_step
    rw [hget]
    rfl
  | some e =>
    unfold Game.enemy_ai_step Game.ai_horiz codeDecision
    rw [hget]
    simp only [apply_ite (applyDecision g i)]
    simp only [applyDecision]

/-- C9: the per-decision chase step equals the specification's pure priority
policy executed through `try_move_enemy`, and an attempted step whose
destination is not occupiable or is occupied by another enemy silently leaves
the state unchanged. -/
theorem spec_c9_chase_policy : ∀ (g : Game) (i : Nat),
    (g.enemy_ai_step i = applyDecision g i
      (match g.enemies.get? i with
       | none => none
       | some e => chaseDecision (tile_at g.grid e.x e.y) (tile_at g.grid e.x (e.y - 1))
           (tile_at g.grid e.x (e.y + 1)) g.player.x g.player.y e.x e.y)) ∧
    (∀ e (dx dy : Int), g.enemies.get? i = some e →
      (is_walkable (tile_at g.grid (e.x + dx) (e.y + dy)) = false ∨
        (g.enemies.enum.any fun p => p.1 != i && p.2.x == e.x + dx && p.2.y == e.y + dy) = true) →
      g.try_move_enemy i dx dy = (g, false)) := by
  intro g i
  constructor
  · rw [ai_step_eq_code g i]
    apply congrArg (applyDecision g i)
    cases hget : g.enemies.get? i with
    | none => rfl
    | some e => exact decision_eq ..
  · intro e dx dy hget hblock
    unfold Game.try_move_enemy
    rw [hget]
    simp only [Game.tile]
    rcases hblock with hb | hb
    · rw [if_pos (by rw [hb]; rfl)]
    · by_cases hw : is_walkable (tile_at g.grid (e.x + dx) (e.y + dy)) = true
      · rw [if_neg (by rw [hw]; simp), if_pos hb]
      · have hw2 : is_walkable (tile_at g.grid (e.x + dx) (e.y + dy)) = false := by
          simpa using hw
        rw [if_pos (by rw [hw2]; rfl)]

theorem spec_c9_chase_policy_witness :
    Game.reset.try_move_enemy 0 2 0 = (Game.reset, false) :=
  (spec_c9_chase_policy Game.reset 0).2 ⟨17, 9, (17, 9)⟩ 2 0 (by decide)
    (Or.inl (by decide))
